import Mathlib

/-!
Shallow embedding of the GQM evaluation core of the `rag-evaluator` repository
(`src/rag_evaluator/framework/gqm.py`, `metric_executor.py`, `config.py`,
`evaluation_data.py`, `constants.py`).

Python floats are modelled as exact rationals (`ℚ`); Python code that can raise
an exception is modelled with `Option`/`Except` (`none` / `.error ()` marks a
raised exception propagating to the caller).  The payload of the Python
`individual_scores : List[Dict[str, Any]]` field is modelled as a list of
string-keyed rational dictionaries, since no code under verification inspects
the entries.  External effectful collaborators (the concrete metric functions
behind the dispatcher, and the RAG system's `query`) are modelled as explicit
oracles passed in as function arguments; the number of times the code calls
them is made observable by threading an explicit invocation log.
-/

namespace RagEval

/-- Model of a Python `Dict[str, Any]` entry inside `individual_scores`. -/
abbrev IndEntry := List (String × ℚ)

/-- Model of `individual_scores : List[Dict[str, Any]]`. -/
abbrev IndScores := List IndEntry

/-- `gqm.MetricResult` dataclass. -/
structure MetricResult where
  metric_id : String
  value : ℚ
  weight : ℚ := 1
  individual_scores : Option IndScores := none
deriving DecidableEq

/-- `gqm.MetricResult.has_details`. -/
def MetricResult.has_details (m : MetricResult) : Bool :=
  m.individual_scores.isSome

/-- `gqm.QuestionResult` dataclass. -/
structure QuestionResult where
  question_text : String
  metrics : List MetricResult
  weight : ℚ := 1
deriving DecidableEq

/-- `sum(metric.weight for metric in self.metrics)` in `QuestionResult.score`. -/
def QuestionResult.totalWeight (q : QuestionResult) : ℚ :=
  (q.metrics.map MetricResult.weight).sum

/-- `sum(metric.value * metric.weight for metric in self.metrics)`. -/
def QuestionResult.weightedSum (q : QuestionResult) : ℚ :=
  (q.metrics.map (fun m => m.value * m.weight)).sum

/-- `gqm.QuestionResult.score`.  The Python body divides by `total_weight`
without a guard, so with a non-empty metric list whose weights sum to zero the
float division raises `ZeroDivisionError`: that raised exception is `none`. -/
def QuestionResult.score (q : QuestionResult) : Option ℚ :=
  if q.metrics = [] then some 0
  else if q.totalWeight = 0 then none
  else some (q.weightedSum / q.totalWeight)

/-- `gqm.GoalResult` dataclass. -/
structure GoalResult where
  goal_name : String
  questions : List QuestionResult
  weight : ℚ := 1
deriving DecidableEq

/-- `sum(question.weight for question in self.questions)`. -/
def GoalResult.totalWeight (g : GoalResult) : ℚ :=
  (g.questions.map QuestionResult.weight).sum

/-- Exception-propagating map over a list: Python generator expressions raise
as soon as one element's evaluation raises. -/
def optionMap {α β : Type} (f : α → Option β) : List α → Option (List β)
  | [] => some []
  | a :: l =>
    match f a, optionMap f l with
    | some b, some l2 => some (b :: l2)
    | _, _ => none

/-- `sum(question.score * question.weight for question in self.questions)`;
evaluating `question.score` may raise. -/
def GoalResult.weightedSum (g : GoalResult) : Option ℚ :=
  (optionMap (fun q => q.score.map (· * q.weight)) g.questions).map List.sum

/-- `gqm.GoalResult.score`: guarded, `0.0` unless `total_weight > 0`. -/
def GoalResult.score (g : GoalResult) : Option ℚ :=
  if g.questions = [] then some 0
  else
    match g.weightedSum with
    | none => none
    | some ws => some (if 0 < g.totalWeight then ws / g.totalWeight else 0)

/-- `gqm.EvaluationResult` dataclass. -/
structure EvaluationResult where
  goals : List GoalResult
deriving DecidableEq

/-- `sum(goal.weight for goal in self.goals)`. -/
def EvaluationResult.totalWeight (e : EvaluationResult) : ℚ :=
  (e.goals.map GoalResult.weight).sum

/-- `sum(goal.score * goal.weight for goal in self.goals)`. -/
def EvaluationResult.weightedSum (e : EvaluationResult) : Option ℚ :=
  (optionMap (fun g => g.score.map (· * g.weight)) e.goals).map List.sum

/-- `gqm.EvaluationResult.score`: guarded, `0.0` unless `total_weight > 0`. -/
def EvaluationResult.score (e : EvaluationResult) : Option ℚ :=
  if e.goals = [] then some 0
  else
    match e.weightedSum with
    | none => none
    | some ws => some (if 0 < e.totalWeight then ws / e.totalWeight else 0)

/-! ### `EvaluationResult.to_dict` serialization -/

/-- One serialized metric entry; the `individual_scores` key is present only
when `has_details` holds, modelled by the `Option`. -/
structure MetricDict where
  id : String
  value : ℚ
  weight : ℚ
  individual_scores : Option IndScores
deriving DecidableEq

/-- The metric entry built inside `EvaluationResult.to_dict`. -/
def MetricResult.toDict (m : MetricResult) : MetricDict :=
  ⟨m.metric_id, m.value, m.weight, m.individual_scores⟩

/-- One serialized question entry. -/
structure QuestionDict where
  text : String
  score : ℚ
  weight : ℚ
  metrics : List MetricDict
deriving DecidableEq

/-- The question entry built inside `EvaluationResult.to_dict`; evaluating
`question.score` may raise. -/
def QuestionResult.toDict (q : QuestionResult) : Option QuestionDict :=
  q.score.map fun s => ⟨q.question_text, s, q.weight, q.metrics.map MetricResult.toDict⟩

/-- One serialized goal entry. -/
structure GoalDict where
  name : String
  score : ℚ
  weight : ℚ
  questions : List QuestionDict
deriving DecidableEq

/-- The goal entry built inside `EvaluationResult.to_dict`. -/
def GoalResult.toDict (g : GoalResult) : Option GoalDict :=
  match g.score, optionMap QuestionResult.toDict g.questions with
  | some s, some qs => some ⟨g.goal_name, s, g.weight, qs⟩
  | _, _ => none

/-- The whole serialized document. -/
structure EvalDict where
  overall_score : ℚ
  goals : List GoalDict
deriving DecidableEq

/-- `gqm.EvaluationResult.to_dict`. -/
def EvaluationResult.to_dict (e : EvaluationResult) : Option EvalDict :=
  match e.score, optionMap GoalResult.toDict e.goals with
  | some s, some gs => some ⟨s, gs⟩
  | _, _ => none

/-! ### Configuration (`config.py`) and evaluation data (`evaluation_data.py`) -/

/-- `config.QuestionConfig`; the Python `metrics : Dict[str, float]` is an
insertion-ordered dict, modelled as an association list. -/
structure QuestionConfig where
  text : String
  weight : ℚ := 1
  metrics : List (String × ℚ) := []
deriving DecidableEq

/-- `config.GoalConfig`. -/
structure GoalConfig where
  name : String
  weight : ℚ := 1
  questions : List QuestionConfig
deriving DecidableEq

/-- `config.EvaluationConfig` (the `test_case_generation` field plays no role
in the evaluation path under verification). -/
structure EvaluationConfig where
  goals : List GoalConfig
deriving DecidableEq

/-- `evaluation_data.TestCase`. -/
structure TestCase where
  question : String
  ground_truth : String
  question_type : String := "simple"
  entities : List String := []
deriving DecidableEq

/-- `evaluation_data.TestCaseResult`; `retrieved_documents : List[Any]` is
modelled as a list of strings. -/
structure TestCaseResult where
  query : String
  generated_answer : String
  retrieved_documents : List String
  ground_truth : String
  entities : List String := []
  question_type : String := "simple"
deriving DecidableEq

/-- `evaluation_data.EvaluationData`. -/
structure EvaluationData where
  test_case_results : List TestCaseResult
deriving DecidableEq

/-! ### The RAG system oracle and `GQMFramework._test_rag_system` -/

/-- The value returned by `rag_system.query`. -/
structure RagResult where
  answer : String
  retrieved_documents : List String
deriving DecidableEq

/-- The RAG system's `query` capability: `.error ()` models a raised
exception. -/
abbrev RagSystem := TestCase → Except Unit RagResult

/-- The `for test_case in test_cases` loop of `GQMFramework._test_rag_system`,
with the accumulated `test_case_results` list and a log of the questions
passed to `rag_system.query`, one entry per invocation, in call order. -/
def testLoop (rag : RagSystem) :
    List TestCase → List TestCaseResult → List String →
      List TestCaseResult × List String
  | [], acc, log => (acc, log)
  | tc :: rest, acc, log =>
    match rag tc with
    | .ok r =>
      testLoop rag rest
        (acc ++ [⟨tc.question, r.answer, r.retrieved_documents,
                  tc.ground_truth, tc.entities, tc.question_type⟩])
        (log ++ [tc.question])
    | .error _ =>
      testLoop rag rest
        (acc ++ [⟨tc.question, "", [], tc.ground_truth, tc.entities,
                  tc.question_type⟩])
        (log ++ [tc.question])

/-- `GQMFramework._test_rag_system`, returning the `EvaluationData` together
with the query-invocation log. -/
def GQMFramework.test_rag_system (rag : RagSystem) (tcs : List TestCase) :
    EvaluationData × List String :=
  let p := testLoop rag tcs [] []
  (⟨p.1⟩, p.2)

/-! ### Metric dispatch (`metric_executor.py`) -/

/-- A value returned by a metric function: a bare float or a dict with
optional `score` / `individual_scores` keys (`value.get` on a missing key
yields the default). -/
inductive MetricValue where
  | num (x : ℚ)
  | dict (score? : Option ℚ) (ind? : Option IndScores)
deriving DecidableEq

/-- The pluggable metric functions behind the dispatcher (LLM / model
inference); `.error ()` models a raised exception, `.ok none` models the
Python `None` "no data" sentinel. -/
abbrev MetricOracle := String → EvaluationData → Except Unit (Option MetricValue)

/-- The fifteen values of `constants.MetricId`. -/
def recognizedMetricIds : List String :=
  ["context_precision", "context_recall", "context_relevance",
   "context_entities_recall", "faithfulness", "factual_consistency",
   "answer_relevance", "bertscore", "answer_correctness",
   "semantic_diversity", "attribution_score", "answer_completeness",
   "self_consistency", "multi_hop_reasoning", "context_utilization"]

/-- `MetricExecutor.execute_metric`: an unrecognized id is logged and scored
`0.0`; a raising metric function is caught, logged and scored `0.0`; otherwise
the metric function's value (possibly the `None` sentinel) is returned.  The
method itself never raises. -/
def MetricExecutor.execute_metric (oracle : MetricOracle) (metric_id : String)
    (d : EvaluationData) : Option MetricValue :=
  if metric_id ∈ recognizedMetricIds then
    match oracle metric_id d with
    | .error _ => some (.num 0)
    | .ok v => v
  else some (.num 0)

/-! ### The metric-result cache and `GQMFramework._get_or_execute_metric` -/

/-- `gqm.CachedMetricResult` dataclass. -/
structure CachedMetricResult where
  metric_id : String
  value : ℚ
  individual_scores : Option IndScores := none
deriving DecidableEq

/-- First-match association-list lookup; the evaluation code only inserts a
key after a failed lookup, so keys stay unique, matching Python dict
semantics. -/
def lookupCache : List (String × CachedMetricResult) → String →
    Option CachedMetricResult
  | [], _ => none
  | (k, v) :: rest, mid => if k = mid then some v else lookupCache rest mid

/-- The mutable state of a `GQMFramework` instance relevant to evaluation:
`self._metric_cache`, plus a log of the metric ids passed to
`MetricExecutor.execute_metric`, one entry per invocation, in call order. -/
structure FrameworkState where
  metric_cache : List (String × CachedMetricResult) := []
  execLog : List String := []
deriving DecidableEq

def FrameworkState.cacheLookup (st : FrameworkState) (mid : String) :
    Option CachedMetricResult :=
  lookupCache st.metric_cache mid

/-- Number of `MetricExecutor.execute_metric` invocations for `mid`. -/
def FrameworkState.execCount (st : FrameworkState) (mid : String) : ℕ :=
  (st.execLog.filter (fun k => k = mid)).length

/-- The shape normalization applied to a non-`None` metric value:
`score = value.get("score", 0.0)` with the breakdown when the value is a dict
and detailed results are requested, otherwise `score = float(value)` — which
raises `TypeError` on a dict. -/
def normalizeValue (flag : Bool) : MetricValue → Except Unit (ℚ × Option IndScores)
  | .dict s? i? => if flag then .ok (s?.getD 0, i?) else .error ()
  | .num x => .ok (x, none)

/-- `GQMFramework._get_or_execute_metric`.  `flag` is
`get_config().return_detailed_results`.  A cache hit returns the cached
`{value, individual_scores}` pair under the caller's weight without invoking
the executor; a miss invokes the executor, propagates the `None` sentinel
without caching, and otherwise normalizes, caches and returns the result; a
normalization failure is logged and re-raised (`.error`). -/
def GQMFramework.get_or_execute_metric (oracle : MetricOracle) (flag : Bool)
    (mid : String) (weight : ℚ) (d : EvaluationData) (st : FrameworkState) :
    Except Unit (Option MetricResult) × FrameworkState :=
  match st.cacheLookup mid with
  | some c => (.ok (some ⟨mid, c.value, weight, c.individual_scores⟩), st)
  | none =>
    let st1 : FrameworkState := ⟨st.metric_cache, st.execLog ++ [mid]⟩
    match MetricExecutor.execute_metric oracle mid d with
    | none => (.ok none, st1)
    | some v =>
      match normalizeValue flag v with
      | .error e => (.error e, st1)
      | .ok (score, ind) =>
        (.ok (some ⟨mid, score, weight, ind⟩),
         ⟨st1.metric_cache ++ [(mid, ⟨mid, score, ind⟩)], st1.execLog⟩)

/-! ### `evaluate_question` / `evaluate_goal` / `evaluate` -/

/-- The common shape of the three result-accumulating `for` loops of
`GQMFramework`: process items left to right, skip `none` results, append the
rest to the accumulator, and propagate a raised exception immediately
(leaving the framework state as the failing step left it). -/
def foldLoop {γ α : Type}
    (step : γ → FrameworkState → Except Unit (Option α) × FrameworkState) :
    List γ → List α → FrameworkState → Except Unit (List α) × FrameworkState
  | [], acc, st => (.ok acc, st)
  | g :: rest, acc, st =>
    match step g st with
    | (.error e, st1) => (.error e, st1)
    | (.ok none, st1) => foldLoop step rest acc st1
    | (.ok (some x), st1) => foldLoop step rest (acc ++ [x]) st1

/-- The `for metric_id, weight in question_config.metrics.items()` loop of
`GQMFramework.evaluate_question`: `None` results are skipped, exceptions
propagate. -/
def GQMFramework.evalMetricsLoop (oracle : MetricOracle) (flag : Bool)
    (d : EvaluationData) (ms : List (String × ℚ)) (acc : List MetricResult)
    (st : FrameworkState) : Except Unit (List MetricResult) × FrameworkState :=
  foldLoop (fun mw st => GQMFramework.get_or_execute_metric oracle flag mw.1 mw.2 d st)
    ms acc st

/-- `GQMFramework.evaluate_question`. -/
def GQMFramework.evaluate_question (oracle : MetricOracle) (flag : Bool)
    (qc : QuestionConfig) (d : EvaluationData) (st : FrameworkState) :
    Except Unit QuestionResult × FrameworkState :=
  match GQMFramework.evalMetricsLoop oracle flag d qc.metrics [] st with
  | (.error e, st1) => (.error e, st1)
  | (.ok ms, st1) => (.ok ⟨qc.text, ms, qc.weight⟩, st1)

/-- The `for question_config in goal_config.questions` loop of
`GQMFramework.evaluate_goal`: every produced `QuestionResult` is appended. -/
def GQMFramework.evalQuestionsLoop (oracle : MetricOracle) (flag : Bool)
    (d : EvaluationData) (qcs : List QuestionConfig)
    (acc : List QuestionResult) (st : FrameworkState) :
    Except Unit (List QuestionResult) × FrameworkState :=
  foldLoop (fun qc st =>
      ((GQMFramework.evaluate_question oracle flag qc d st).1.map some,
       (GQMFramework.evaluate_question oracle flag qc d st).2))
    qcs acc st

/-- `GQMFramework.evaluate_goal`. -/
def GQMFramework.evaluate_goal (oracle : MetricOracle) (flag : Bool)
    (gc : GoalConfig) (d : EvaluationData) (st : FrameworkState) :
    Except Unit GoalResult × FrameworkState :=
  match GQMFramework.evalQuestionsLoop oracle flag d gc.questions [] st with
  | (.error e, st1) => (.error e, st1)
  | (.ok qrs, st1) => (.ok ⟨gc.name, qrs, gc.weight⟩, st1)

/-- The `for goal_config in self.config.goals` loop of
`GQMFramework.evaluate`: every produced `GoalResult` is appended. -/
def GQMFramework.evalGoalsLoop (oracle : MetricOracle) (flag : Bool)
    (d : EvaluationData) (gcs : List GoalConfig) (acc : List GoalResult)
    (st : FrameworkState) : Except Unit (List GoalResult) × FrameworkState :=
  foldLoop (fun gc st =>
      ((GQMFramework.evaluate_goal oracle flag gc d st).1.map some,
       (GQMFramework.evaluate_goal oracle flag gc d st).2))
    gcs acc st

/-- `GQMFramework.evaluate`: runs the test cases through the RAG system, then
evaluates every goal of the configuration.  Note that the method does not
touch `self._metric_cache` before the goal loop: the incoming framework state
`st` is threaded through unchanged. -/
def GQMFramework.evaluate (oracle : MetricOracle) (flag : Bool)
    (cfg : EvaluationConfig) (tcs : List TestCase) (rag : RagSystem)
    (st : FrameworkState) : Except Unit EvaluationResult × FrameworkState :=
  match GQMFramework.evalGoalsLoop oracle flag
      (GQMFramework.test_rag_system rag tcs).1 cfg.goals [] st with
  | (.error e, st1) => (.error e, st1)
  | (.ok grs, st1) => (.ok ⟨grs⟩, st1)

/-! ## Shared lemmas -/

section ListLemmas

lemma lookupCache_append_of_some {c₁ : List (String × CachedMetricResult)}
    {mid : String} {v : CachedMetricResult}
    (h : lookupCache c₁ mid = some v) (c₂ : List (String × CachedMetricResult)) :
    lookupCache (c₁ ++ c₂) mid = some v := by
  induction c₁ with
  | nil => simp [lookupCache] at h
  | cons kv rest ih =>
    obtain ⟨k, w⟩ := kv
    by_cases hk : k = mid
    · simpa [lookupCache, hk] using h
    · simp only [lookupCache, hk, if_false] at h ⊢
      exact ih h

lemma lookupCache_append_of_none {c₁ : List (String × CachedMetricResult)}
    {mid : String}
    (h : lookupCache c₁ mid = none) (c₂ : List (String × CachedMetricResult)) :
    lookupCache (c₁ ++ c₂) mid = lookupCache c₂ mid := by
  induction c₁ with
  | nil => simp [lookupCache]
  | cons kv rest ih =>
    obtain ⟨k, w⟩ := kv
    by_cases hk : k = mid
    · simp [lookupCache, hk] at h
    · simp only [lookupCache, hk, if_false] at h ⊢
      exact ih h

lemma lookupCache_single {k mid : String} {v : CachedMetricResult} :
    lookupCache [(k, v)] mid = if k = mid then some v else none := by
  simp [lookupCache]

/-- Number of occurrences of `mid` in an invocation log. -/
def logCount (log : List String) (mid : String) : ℕ :=
  (log.filter (fun k => k = mid)).length

lemma execCount_eq_logCount (st : FrameworkState) (mid : String) :
    st.execCount mid = logCount st.execLog mid := rfl

lemma logCount_append (l₁ l₂ : List String) (mid : String) :
    logCount (l₁ ++ l₂) mid = logCount l₁ mid + logCount l₂ mid := by
  simp [logCount, List.filter_append]

lemma logCount_single_self (mid : String) : logCount [mid] mid = 1 := by
  simp [logCount]

lemma logCount_single_ne {k mid : String} (h : k ≠ mid) :
    logCount [k] mid = 0 := by
  simp [logCount, h]

end ListLemmas

section OptionMapLemmas

lemma optionMap_eq_some_of_isSome {α β : Type} (f : α → Option β) (d₀ : β)
    (l : List α) (h : ∀ a ∈ l, (f a).isSome) :
    optionMap f l = some (l.map fun a => (f a).getD d₀) := by
  induction l with
  | nil => simp [optionMap]
  | cons a rest ih =>
    obtain ⟨b, hb⟩ := Option.isSome_iff_exists.mp (h a (by simp))
    have hrest := ih (fun x hx => h x (by simp [hx]))
    simp [optionMap, hb, hrest]

lemma optionMap_forall₂ {α β : Type} (f : α → Option β) :
    ∀ (l : List α) (l2 : List β), optionMap f l = some l2 →
      List.Forall₂ (fun a b => f a = some b) l l2 := by
  intro l
  induction l with
  | nil => intro l2 h; simp [optionMap] at h; simp [← h]
  | cons a rest ih =>
    intro l2 h
    simp only [optionMap] at h
    cases hfa : f a with
    | none => rw [hfa] at h; simp at h
    | some b =>
      rw [hfa] at h
      cases hrest : optionMap f rest with
      | none => rw [hrest] at h; simp at h
      | some l3 =>
        rw [hrest] at h
        simp only [Option.some.injEq] at h
        subst h
        exact List.Forall₂.cons hfa (ih l3 hrest)

lemma optionMap_isSome_elem {α β : Type} (f : α → Option β)
    {l : List α} {l2 : List β} (h : optionMap f l = some l2) :
    ∀ a ∈ l, (f a).isSome := by
  induction l generalizing l2 with
  | nil => simp
  | cons a rest ih =>
    simp only [optionMap] at h
    cases hfa : f a with
    | none => rw [hfa] at h; simp at h
    | some b =>
      rw [hfa] at h
      cases hrest : optionMap f rest with
      | none => rw [hrest] at h; simp at h
      | some l3 =>
        intro x hx
        rcases List.mem_cons.mp hx with hx | hx
        · simp [hx, hfa]
        · exact ih hrest x hx

end OptionMapLemmas

section ScoreLemmas

lemma question_score_of_empty {q : QuestionResult} (h : q.metrics = []) :
    q.score = some 0 := by
  simp [QuestionResult.score, h]

lemma question_totalWeight_of_empty {q : QuestionResult}
    (h : q.metrics = []) : q.totalWeight = 0 := by
  simp [QuestionResult.totalWeight, h]

lemma question_score_of_totalWeight_ne {q : QuestionResult}
    (h : q.totalWeight ≠ 0) :
    q.score = some (q.weightedSum / q.totalWeight) := by
  have hne : q.metrics ≠ [] := fun he => h (question_totalWeight_of_empty he)
  simp [QuestionResult.score, hne, h]

lemma goal_score_of_empty {g : GoalResult} (h : g.questions = []) :
    g.score = some 0 := by
  simp [GoalResult.score, h]

lemma goal_totalWeight_of_empty {g : GoalResult}
    (h : g.questions = []) : g.totalWeight = 0 := by
  simp [GoalResult.totalWeight, h]

lemma goal_score_of_pos {g : GoalResult} (hw : 0 < g.totalWeight)
    (hs : ∀ q ∈ g.questions, (q.score).isSome) :
    g.score =
      some ((g.questions.map fun q => (q.score.getD 0) * q.weight).sum /
        g.totalWeight) := by
  have hne : g.questions ≠ [] := by
    intro he
    rw [goal_totalWeight_of_empty he] at hw
    exact lt_irrefl 0 hw
  have hmap : ∀ q ∈ g.questions,
      ((q.score.map (· * q.weight)).getD 0) = (q.score.getD 0) * q.weight := by
    intro q hq
    obtain ⟨s, hsq⟩ := Option.isSome_iff_exists.mp (hs q hq)
    rw [hsq]; rfl
  have hws : g.weightedSum =
      some ((g.questions.map fun q => (q.score.getD 0) * q.weight).sum) := by
    rw [GoalResult.weightedSum,
      optionMap_eq_some_of_isSome (fun q => q.score.map (· * q.weight)) 0
        g.questions (fun q hq => by
          obtain ⟨s, hsq⟩ := Option.isSome_iff_exists.mp (hs q hq)
          simp [hsq])]
    simp only [Option.map_some']
    exact congrArg (fun l => some l.sum) (List.map_congr_left hmap)
  simp [GoalResult.score, hne, hws, hw]

lemma eval_score_of_empty {e : EvaluationResult}
    (h : e.goals = []) : e.score = some 0 := by
  simp [EvaluationResult.score, h]

lemma eval_totalWeight_of_empty {e : EvaluationResult}
    (h : e.goals = []) : e.totalWeight = 0 := by
  simp [EvaluationResult.totalWeight, h]

lemma eval_score_of_pos {e : EvaluationResult}
    (hw : 0 < e.totalWeight) (hs : ∀ g ∈ e.goals, (g.score).isSome) :
    e.score =
      some ((e.goals.map fun g => (g.score.getD 0) * g.weight).sum /
        e.totalWeight) := by
  have hne : e.goals ≠ [] := by
    intro he
    rw [eval_totalWeight_of_empty he] at hw
    exact lt_irrefl 0 hw
  have hmap : ∀ g ∈ e.goals,
      ((g.score.map (· * g.weight)).getD 0) = (g.score.getD 0) * g.weight := by
    intro g hg
    obtain ⟨s, hsg⟩ := Option.isSome_iff_exists.mp (hs g hg)
    rw [hsg]; rfl
  have hws : e.weightedSum =
      some ((e.goals.map fun g => (g.score.getD 0) * g.weight).sum) := by
    rw [EvaluationResult.weightedSum,
      optionMap_eq_some_of_isSome (fun g => g.score.map (· * g.weight)) 0
        e.goals (fun g hg => by
          obtain ⟨s, hsg⟩ := Option.isSome_iff_exists.mp (hs g hg)
          simp [hsg])]
    simp only [Option.map_some']
    exact congrArg (fun l => some l.sum) (List.map_congr_left hmap)
  simp [EvaluationResult.score, hne, hws, hw]

end ScoreLemmas

section CacheStepLemmas

lemma lookupCache_append_other {c₁ : List (String × CachedMetricResult)}
    {k mid : String} {v : CachedMetricResult} (hne : mid ≠ k) :
    lookupCache (c₁ ++ [(k, v)]) mid = lookupCache c₁ mid := by
  cases hc : lookupCache c₁ mid with
  | some w => exact lookupCache_append_of_some hc _
  | none =>
    rw [lookupCache_append_of_none hc, lookupCache_single]
    simp [Ne.symm hne]

lemma lookupCache_append_self {c₁ : List (String × CachedMetricResult)}
    {mid : String} {v : CachedMetricResult} (h : lookupCache c₁ mid = none) :
    lookupCache (c₁ ++ [(mid, v)]) mid = some v := by
  rw [lookupCache_append_of_none h, lookupCache_single]
  simp

lemma get_or_execute_cached {st : FrameworkState} {mid : String}
    {c : CachedMetricResult} (oracle : MetricOracle) (flag : Bool) (w : ℚ)
    (d : EvaluationData) (h : st.cacheLookup mid = some c) :
    GQMFramework.get_or_execute_metric oracle flag mid w d st =
      (.ok (some ⟨mid, c.value, w, c.individual_scores⟩), st) := by
  simp [GQMFramework.get_or_execute_metric, h]

lemma get_or_execute_nodata {st : FrameworkState} {mid : String}
    (oracle : MetricOracle) (flag : Bool) (w : ℚ) (d : EvaluationData)
    (h : st.cacheLookup mid = none)
    (he : MetricExecutor.execute_metric oracle mid d = none) :
    GQMFramework.get_or_execute_metric oracle flag mid w d st =
      (.ok none, ⟨st.metric_cache, st.execLog ++ [mid]⟩) := by
  simp [GQMFramework.get_or_execute_metric, h, he]

lemma get_or_execute_exec_ok {st : FrameworkState} {mid : String}
    {v : MetricValue} {s : ℚ} {i : Option IndScores}
    (oracle : MetricOracle) (flag : Bool) (w : ℚ) (d : EvaluationData)
    (h : st.cacheLookup mid = none)
    (he : MetricExecutor.execute_metric oracle mid d = some v)
    (hn : normalizeValue flag v = .ok (s, i)) :
    GQMFramework.get_or_execute_metric oracle flag mid w d st =
      (.ok (some ⟨mid, s, w, i⟩),
       ⟨st.metric_cache ++ [(mid, ⟨mid, s, i⟩)], st.execLog ++ [mid]⟩) := by
  simp [GQMFramework.get_or_execute_metric, h, he, hn]

lemma get_or_execute_exec_err {st : FrameworkState} {mid : String}
    {v : MetricValue} {e : Unit}
    (oracle : MetricOracle) (flag : Bool) (w : ℚ) (d : EvaluationData)
    (h : st.cacheLookup mid = none)
    (he : MetricExecutor.execute_metric oracle mid d = some v)
    (hn : normalizeValue flag v = .error e) :
    GQMFramework.get_or_execute_metric oracle flag mid w d st =
      (.error e, ⟨st.metric_cache, st.execLog ++ [mid]⟩) := by
  simp [GQMFramework.get_or_execute_metric, h, he, hn]

/-- The metric id normalizes successfully: the executor produces a value and
the shape normalization does not raise. -/
def execNormalizes (oracle : MetricOracle) (flag : Bool) (mid : String)
    (d : EvaluationData) : Prop :=
  ∃ v s i, MetricExecutor.execute_metric oracle mid d = some v ∧
    normalizeValue flag v = .ok (s, i)

/-- Step lemma: a call for any key preserves a cached target entry and never
re-invokes the executor for it. -/
lemma step_cached {oracle : MetricOracle} {flag : Bool} {k : String} {w : ℚ}
    {d : EvaluationData} {st : FrameworkState} {mid : String}
    {c : CachedMetricResult} {r0 : Except Unit (Option MetricResult)}
    {st0 : FrameworkState}
    (hstep : GQMFramework.get_or_execute_metric oracle flag k w d st = (r0, st0))
    (hc : st.cacheLookup mid = some c) :
    st0.cacheLookup mid = some c ∧ st0.execCount mid = st.execCount mid := by
  by_cases hk : k = mid
  · subst hk
    rw [get_or_execute_cached oracle flag w d hc] at hstep
    injection hstep with h1 h2
    subst h2
    exact ⟨hc, rfl⟩
  · have hkm : mid ≠ k := fun h => hk h.symm
    cases hck : st.cacheLookup k with
    | some ck =>
      rw [get_or_execute_cached oracle flag w d hck] at hstep
      injection hstep with h1 h2
      subst h2
      exact ⟨hc, rfl⟩
    | none =>
      cases he : MetricExecutor.execute_metric oracle k d with
      | none =>
        rw [get_or_execute_nodata oracle flag w d hck he] at hstep
        injection hstep with h1 h2
        subst h2
        refine ⟨hc, ?_⟩
        simp [FrameworkState.execCount, logCount, List.filter_append, hkm.symm]
      | some v =>
        cases hn : normalizeValue flag v with
        | error e =>
          rw [get_or_execute_exec_err oracle flag w d hck he hn] at hstep
          injection hstep with h1 h2
          subst h2
          refine ⟨hc, ?_⟩
          simp [FrameworkState.execCount, logCount, List.filter_append, hkm.symm]
        | ok p =>
          obtain ⟨s, i⟩ := p
          rw [get_or_execute_exec_ok oracle flag w d hck he hn] at hstep
          injection hstep with h1 h2
          subst h2
          constructor
          · exact lookupCache_append_of_some hc _
          · simp [FrameworkState.execCount, logCount, List.filter_append, hkm.symm]

/-- Step lemma: with an uncached target that normalizes successfully, a call
for key `k` either leaves the target untouched (`k ≠ mid`) or executes it
exactly once and caches it (`k = mid`). -/
lemma step_uncached {oracle : MetricOracle} {flag : Bool} {k : String} {w : ℚ}
    {d : EvaluationData} {st : FrameworkState} {mid : String}
    {r0 : Except Unit (Option MetricResult)} {st0 : FrameworkState}
    (hstep : GQMFramework.get_or_execute_metric oracle flag k w d st = (r0, st0))
    (hc : st.cacheLookup mid = none)
    (hn : execNormalizes oracle flag mid d) :
    (k ≠ mid ∧ st0.cacheLookup mid = none ∧
      st0.execCount mid = st.execCount mid) ∨
    (k = mid ∧ (∃ c, st0.cacheLookup mid = some c) ∧
      st0.execCount mid = st.execCount mid + 1 ∧ ∃ mr, r0 = .ok (some mr)) := by
  by_cases hk : k = mid
  · subst hk
    obtain ⟨v, s, i, he, hnv⟩ := hn
    rw [get_or_execute_exec_ok oracle flag w d hc he hnv] at hstep
    injection hstep with h1 h2
    subst h2
    refine .inr ⟨rfl, ⟨⟨k, s, i⟩, ?_⟩, ?_, ⟨⟨k, s, w, i⟩, h1.symm⟩⟩
    · exact lookupCache_append_self hc
    · simp [FrameworkState.execCount, logCount, List.filter_append]
  · have hkm : mid ≠ k := fun h => hk h.symm
    refine .inl ⟨hk, ?_⟩
    cases hck : st.cacheLookup k with
    | some ck =>
      rw [get_or_execute_cached oracle flag w d hck] at hstep
      injection hstep with h1 h2
      subst h2
      exact ⟨hc, rfl⟩
    | none =>
      cases he : MetricExecutor.execute_metric oracle k d with
      | none =>
        rw [get_or_execute_nodata oracle flag w d hck he] at hstep
        injection hstep with h1 h2
        subst h2
        exact ⟨hc, by
          simp [FrameworkState.execCount, logCount, List.filter_append, hkm.symm]⟩
      | some v =>
        cases hnv : normalizeValue flag v with
        | error e =>
          rw [get_or_execute_exec_err oracle flag w d hck he hnv] at hstep
          injection hstep with h1 h2
          subst h2
          exact ⟨hc, by
            simp [FrameworkState.execCount, logCount, List.filter_append, hkm.symm]⟩
        | ok p =>
          obtain ⟨s, i⟩ := p
          rw [get_or_execute_exec_ok oracle flag w d hck he hnv] at hstep
          injection hstep with h1 h2
          subst h2
          constructor
          · show lookupCache (st.metric_cache ++ [(k, ⟨k, s, i⟩)]) mid = none
            rw [lookupCache_append_other hkm]
            exact hc
          · simp [FrameworkState.execCount, logCount, List.filter_append, hkm.symm]

/-- Step lemma: when the executor reports "no data" for the target, a call for
any key leaves the target uncached and never attaches a result carrying it. -/
lemma step_nodata {oracle : MetricOracle} {flag : Bool} {k : String} {w : ℚ}
    {d : EvaluationData} {st : FrameworkState} {mid : String}
    {r0 : Except Unit (Option MetricResult)} {st0 : FrameworkState}
    (hstep : GQMFramework.get_or_execute_metric oracle flag k w d st = (r0, st0))
    (hc : st.cacheLookup mid = none)
    (he : MetricExecutor.execute_metric oracle mid d = none) :
    st0.cacheLookup mid = none ∧
      ∀ mr, r0 = .ok (some mr) → mr.metric_id ≠ mid := by
  by_cases hk : k = mid
  · subst hk
    rw [get_or_execute_nodata oracle flag w d hc he] at hstep
    injection hstep with h1 h2
    subst h2
    exact ⟨hc, fun mr hmr => by rw [← h1] at hmr; cases hmr⟩
  · have hkm : mid ≠ k := fun h => hk h.symm
    cases hck : st.cacheLookup k with
    | some ck =>
      rw [get_or_execute_cached oracle flag w d hck] at hstep
      injection hstep with h1 h2
      subst h2
      refine ⟨hc, fun mr hmr => ?_⟩
      rw [← h1] at hmr
      injection hmr with h3
      injection h3 with h4
      rw [← h4]
      exact hk
    | none =>
      cases hek : MetricExecutor.execute_metric oracle k d with
      | none =>
        rw [get_or_execute_nodata oracle flag w d hck hek] at hstep
        injection hstep with h1 h2
        subst h2
        exact ⟨hc, fun mr hmr => by rw [← h1] at hmr; cases hmr⟩
      | some v =>
        cases hnv : normalizeValue flag v with
        | error e =>
          rw [get_or_execute_exec_err oracle flag w d hck hek hnv] at hstep
          injection hstep with h1 h2
          subst h2
          exact ⟨hc, fun mr hmr => by rw [← h1] at hmr; cases hmr⟩
        | ok p =>
          obtain ⟨s, i⟩ := p
          rw [get_or_execute_exec_ok oracle flag w d hck hek hnv] at hstep
          injection hstep with h1 h2
          subst h2
          have hlook : FrameworkState.cacheLookup
              ⟨st.metric_cache ++ [(k, ⟨k, s, i⟩)], st.execLog ++ [k]⟩ mid = none := by
            show lookupCache (st.metric_cache ++ [(k, ⟨k, s, i⟩)]) mid = none
            rw [lookupCache_append_other hkm]
            exact hc
          refine ⟨hlook, fun mr hmr => ?_⟩
          rw [← h1] at hmr
          injection hmr with h3
          injection h3 with h4
          rw [← h4]
          exact hk

end CacheStepLemmas

section FoldLoopLemmas

variable {γ α : Type} {mid : String}
variable {step : γ → FrameworkState → Except Unit (Option α) × FrameworkState}

/-- A step that preserves cached targets lifts to the loop. -/
lemma foldLoop_cached
    (hstep : ∀ g st r0 st0 c, step g st = (r0, st0) →
      st.cacheLookup mid = some c →
      st0.cacheLookup mid = some c ∧ st0.execCount mid = st.execCount mid) :
    ∀ (l : List γ) (acc : List α) (st : FrameworkState) (r : Except Unit (List α))
      (st1 : FrameworkState) (c : CachedMetricResult),
      foldLoop step l acc st = (r, st1) →
      st.cacheLookup mid = some c →
      st1.cacheLookup mid = some c ∧ st1.execCount mid = st.execCount mid := by
  intro l
  induction l with
  | nil =>
    intro acc st r st1 c h hc
    simp only [foldLoop] at h
    injection h with h1 h2
    subst h2
    exact ⟨hc, rfl⟩
  | cons g rest ih =>
    intro acc st r st1 c h hc
    simp only [foldLoop] at h
    split at h
    case _ e st0 heq =>
      injection h with h1 h2
      subst h2
      exact hstep _ _ _ _ _ heq hc
    case _ st0 heq =>
      obtain ⟨hc0, hcount0⟩ := hstep _ _ _ _ _ heq hc
      obtain ⟨hc1, hcount1⟩ := ih _ _ _ _ _ h hc0
      exact ⟨hc1, by rw [hcount1, hcount0]⟩
    case _ x st0 heq =>
      obtain ⟨hc0, hcount0⟩ := hstep _ _ _ _ _ heq hc
      obtain ⟨hc1, hcount1⟩ := ih _ _ _ _ _ h hc0
      exact ⟨hc1, by rw [hcount1, hcount0]⟩

/-- With a target that is uncached but would normalize successfully, each loop
run either never touches the target (and, when it completes, no processed item
references it) or executes it exactly once, after which it is cached. -/
lemma foldLoop_uncached (mentions : γ → Prop)
    (hstepC : ∀ g st r0 st0 c, step g st = (r0, st0) →
      st.cacheLookup mid = some c →
      st0.cacheLookup mid = some c ∧ st0.execCount mid = st.execCount mid)
    (hstepU : ∀ g st r0 st0, step g st = (r0, st0) →
      st.cacheLookup mid = none →
      (st0.cacheLookup mid = none ∧ st0.execCount mid = st.execCount mid ∧
        (∀ a, r0 = .ok a → ¬ mentions g)) ∨
      ((∃ c, st0.cacheLookup mid = some c) ∧
        st0.execCount mid = st.execCount mid + 1)) :
    ∀ (l : List γ) (acc : List α) (st : FrameworkState) (r : Except Unit (List α))
      (st1 : FrameworkState),
      foldLoop step l acc st = (r, st1) →
      st.cacheLookup mid = none →
      (st1.cacheLookup mid = none ∧ st1.execCount mid = st.execCount mid ∧
        (∀ xs, r = .ok xs → ∀ g ∈ l, ¬ mentions g)) ∨
      ((∃ c, st1.cacheLookup mid = some c) ∧
        st1.execCount mid = st.execCount mid + 1) := by
  intro l
  induction l with
  | nil =>
    intro acc st r st1 h hc
    simp only [foldLoop] at h
    injection h with h1 h2
    subst h2
    exact .inl ⟨hc, rfl, fun xs hxs g hg => absurd hg (List.not_mem_nil g)⟩
  | cons g rest ih =>
    intro acc st r st1 h hc
    simp only [foldLoop] at h
    split at h
    case _ e st0 heq =>
      injection h with h1 h2
      subst h2
      rcases hstepU _ _ _ _ heq hc with ⟨h0n, h0c, _⟩ | ⟨hs, h0c⟩
      · exact .inl ⟨h0n, h0c, fun xs hxs => by rw [← h1] at hxs; cases hxs⟩
      · exact .inr ⟨hs, h0c⟩
    case _ st0 heq =>
      rcases hstepU _ _ _ _ heq hc with ⟨h0n, h0c, h0m⟩ | ⟨⟨c0, hs⟩, h0c⟩
      · rcases ih _ _ _ _ h h0n with ⟨h1n, h1c, h1m⟩ | ⟨hs1, h1c⟩
        · refine .inl ⟨h1n, by rw [h1c, h0c], fun xs hxs g2 hg2 => ?_⟩
          rcases List.mem_cons.mp hg2 with hg2 | hg2
          · subst hg2; exact h0m none rfl
          · exact h1m xs hxs g2 hg2
        · exact .inr ⟨hs1, by rw [h1c, h0c]⟩
      · obtain ⟨hc1, hcount1⟩ := foldLoop_cached hstepC _ _ _ _ _ _ h hs
        exact .inr ⟨⟨c0, hc1⟩, by rw [hcount1, h0c]⟩
    case _ x st0 heq =>
      rcases hstepU _ _ _ _ heq hc with ⟨h0n, h0c, h0m⟩ | ⟨⟨c0, hs⟩, h0c⟩
      · rcases ih _ _ _ _ h h0n with ⟨h1n, h1c, h1m⟩ | ⟨hs1, h1c⟩
        · refine .inl ⟨h1n, by rw [h1c, h0c], fun xs hxs g2 hg2 => ?_⟩
          rcases List.mem_cons.mp hg2 with hg2 | hg2
          · subst hg2; exact h0m (some x) rfl
          · exact h1m xs hxs g2 hg2
        · exact .inr ⟨hs1, by rw [h1c, h0c]⟩
      · obtain ⟨hc1, hcount1⟩ := foldLoop_cached hstepC _ _ _ _ _ _ h hs
        exact .inr ⟨⟨c0, hc1⟩, by rw [hcount1, h0c]⟩

/-- With a target whose execution reports "no data", the loop leaves the
target uncached and every produced item satisfies the step guarantee. -/
lemma foldLoop_nodata (P : α → Prop)
    (hstep : ∀ g st r0 st0, step g st = (r0, st0) →
      st.cacheLookup mid = none →
      st0.cacheLookup mid = none ∧ ∀ a, r0 = .ok (some a) → P a) :
    ∀ (l : List γ) (acc : List α) (st : FrameworkState) (r : Except Unit (List α))
      (st1 : FrameworkState),
      foldLoop step l acc st = (r, st1) →
      st.cacheLookup mid = none →
      st1.cacheLookup mid = none ∧
        ∀ xs, r = .ok xs → ∀ x ∈ xs, x ∈ acc ∨ P x := by
  intro l
  induction l with
  | nil =>
    intro acc st r st1 h hc
    simp only [foldLoop] at h
    injection h with h1 h2
    subst h2
    refine ⟨hc, fun xs hxs x hx => ?_⟩
    rw [← h1] at hxs
    injection hxs with h3
    subst h3
    exact .inl hx
  | cons g rest ih =>
    intro acc st r st1 h hc
    simp only [foldLoop] at h
    split at h
    case _ e st0 heq =>
      injection h with h1 h2
      subst h2
      obtain ⟨h0n, _⟩ := hstep _ _ _ _ heq hc
      exact ⟨h0n, fun xs hxs => by rw [← h1] at hxs; cases hxs⟩
    case _ st0 heq =>
      obtain ⟨h0n, _⟩ := hstep _ _ _ _ heq hc
      exact ih _ _ _ _ h h0n
    case _ x st0 heq =>
      obtain ⟨h0n, h0p⟩ := hstep _ _ _ _ heq hc
      obtain ⟨h1n, h1p⟩ := ih _ _ _ _ h h0n
      refine ⟨h1n, fun xs hxs y hy => ?_⟩
      rcases h1p xs hxs y hy with hy2 | hy2
      · rcases List.mem_append.mp hy2 with hy3 | hy3
        · exact .inl hy3
        · refine .inr ?_
          have hyx : y = x := by simpa using hy3
          rw [hyx]
          exact h0p x rfl
      · exact .inr hy2

/-- Items already accumulated survive into a successful loop result. -/
lemma foldLoop_acc_sub :
    ∀ (l : List γ) (acc : List α) (st : FrameworkState) (xs : List α)
      (st1 : FrameworkState),
      foldLoop step l acc st = (.ok xs, st1) → ∀ a ∈ acc, a ∈ xs := by
  intro l
  induction l with
  | nil =>
    intro acc st xs st1 h a ha
    simp only [foldLoop] at h
    injection h with h1 h2
    injection h1 with h3
    subst h3
    exact ha
  | cons g rest ih =>
    intro acc st xs st1 h a ha
    simp only [foldLoop] at h
    split at h
    case _ e st0 heq =>
      injection h with h1 h2
      cases h1
    case _ st0 heq => exact ih _ _ _ _ h a ha
    case _ x st0 heq =>
      exact ih _ _ _ _ h a (List.mem_append.mpr (.inl ha))

/-- An item whose step is a state-independent success lands in every
successful loop result that processes it. -/
lemma foldLoop_elem_of_const {g : γ} {x : α}
    (hg : ∀ st, step g st = (.ok (some x), st)) :
    ∀ (l : List γ) (acc : List α) (st : FrameworkState) (xs : List α)
      (st1 : FrameworkState),
      foldLoop step l acc st = (.ok xs, st1) → g ∈ l → x ∈ xs := by
  intro l
  induction l with
  | nil => intro acc st xs st1 h hg2; cases hg2
  | cons g2 rest ih =>
    intro acc st xs st1 h hgm
    rcases List.mem_cons.mp hgm with hgm | hgm
    · subst hgm
      simp only [foldLoop] at h
      rw [hg st] at h
      exact foldLoop_acc_sub _ _ _ _ _ h x (List.mem_append.mpr (.inr (by simp)))
    · simp only [foldLoop] at h
      split at h
      case _ e st0 heq =>
        injection h with h1 h2
        cases h1
      case _ st0 heq => exact ih _ _ _ _ h hgm
      case _ x0 st0 heq => exact ih _ _ _ _ h hgm

end FoldLoopLemmas

/-! ### Referencing predicates -/

/-- The question's configured metric dict mentions `mid`. -/
def QuestionConfig.refs (qc : QuestionConfig) (mid : String) : Prop :=
  mid ∈ qc.metrics.map Prod.fst

/-- Some question of the goal references `mid`. -/
def GoalConfig.refs (gc : GoalConfig) (mid : String) : Prop :=
  ∃ qc ∈ gc.questions, qc.refs mid

/-- Some question of the configuration references `mid`. -/
def EvaluationConfig.refs (cfg : EvaluationConfig) (mid : String) : Prop :=
  ∃ gc ∈ cfg.goals, gc.refs mid

instance (qc : QuestionConfig) (mid : String) : Decidable (qc.refs mid) := by
  unfold QuestionConfig.refs; infer_instance

instance (gc : GoalConfig) (mid : String) : Decidable (gc.refs mid) := by
  unfold GoalConfig.refs; infer_instance

instance (cfg : EvaluationConfig) (mid : String) : Decidable (cfg.refs mid) := by
  unfold EvaluationConfig.refs; infer_instance

/-! ### Question-level cache lemmas -/

section QuestionLevel

variable {oracle : MetricOracle} {flag : Bool} {d : EvaluationData} {mid : String}

lemma evaluate_question_cached {qc : QuestionConfig} {st : FrameworkState}
    {r : Except Unit QuestionResult} {st1 : FrameworkState}
    {c : CachedMetricResult}
    (h : GQMFramework.evaluate_question oracle flag qc d st = (r, st1))
    (hc : st.cacheLookup mid = some c) :
    st1.cacheLookup mid = some c ∧ st1.execCount mid = st.execCount mid := by
  unfold GQMFramework.evaluate_question at h
  split at h
  case _ e st0 heq =>
    injection h with h1 h2
    subst h2
    exact foldLoop_cached (fun g st r0 st0 c h hc => step_cached h hc)
      _ _ _ _ _ _ heq hc
  case _ ms st0 heq =>
    injection h with h1 h2
    subst h2
    exact foldLoop_cached (fun g st r0 st0 c h hc => step_cached h hc)
      _ _ _ _ _ _ heq hc

lemma evaluate_question_uncached {qc : QuestionConfig} {st : FrameworkState}
    {r : Except Unit QuestionResult} {st1 : FrameworkState}
    (hn : execNormalizes oracle flag mid d)
    (h : GQMFramework.evaluate_question oracle flag qc d st = (r, st1))
    (hc : st.cacheLookup mid = none) :
    (st1.cacheLookup mid = none ∧ st1.execCount mid = st.execCount mid ∧
      (∀ qr, r = .ok qr → ¬ qc.refs mid)) ∨
    ((∃ c, st1.cacheLookup mid = some c) ∧
      st1.execCount mid = st.execCount mid + 1) := by
  have hstepU : ∀ (mw : String × ℚ) st r0 st0,
      GQMFramework.get_or_execute_metric oracle flag mw.1 mw.2 d st = (r0, st0) →
      st.cacheLookup mid = none →
      (st0.cacheLookup mid = none ∧ st0.execCount mid = st.execCount mid ∧
        (∀ a, r0 = .ok a → ¬ (mw.1 = mid))) ∨
      ((∃ c, st0.cacheLookup mid = some c) ∧
        st0.execCount mid = st.execCount mid + 1) := by
    intro mw st r0 st0 hstep hcn
    rcases step_uncached hstep hcn hn with ⟨hk, h0, h0c⟩ | ⟨hk, hs, h0c, _⟩
    · exact .inl ⟨h0, h0c, fun a _ => hk⟩
    · exact .inr ⟨hs, h0c⟩
  unfold GQMFramework.evaluate_question at h
  split at h
  case _ e st0 heq =>
    injection h with h1 h2
    subst h2
    rcases foldLoop_uncached (fun mw => mw.1 = mid)
        (fun g st r0 st0 c h hc => step_cached h hc) hstepU
        _ _ _ _ _ heq hc with ⟨h1n, h1c, _⟩ | hr
    · exact .inl ⟨h1n, h1c, fun qr hqr => by rw [← h1] at hqr; cases hqr⟩
    · exact .inr hr
  case _ ms st0 heq =>
    injection h with h1 h2
    subst h2
    rcases foldLoop_uncached (fun mw => mw.1 = mid)
        (fun g st r0 st0 c h hc => step_cached h hc) hstepU
        _ _ _ _ _ heq hc with ⟨h1n, h1c, h1m⟩ | hr
    · refine .inl ⟨h1n, h1c, fun qr hqr hrefs => ?_⟩
      obtain ⟨mw, hmw, hmid⟩ := List.mem_map.mp hrefs
      exact h1m ms rfl mw hmw hmid
    · exact .inr hr

lemma evaluate_question_nodata {qc : QuestionConfig} {st : FrameworkState}
    {r : Except Unit QuestionResult} {st1 : FrameworkState}
    (he : MetricExecutor.execute_metric oracle mid d = none)
    (h : GQMFramework.evaluate_question oracle flag qc d st = (r, st1))
    (hc : st.cacheLookup mid = none) :
    st1.cacheLookup mid = none ∧
      ∀ qr, r = .ok qr → ∀ mr ∈ qr.metrics, mr.metric_id ≠ mid := by
  have hstepN : ∀ (mw : String × ℚ) st r0 st0,
      GQMFramework.get_or_execute_metric oracle flag mw.1 mw.2 d st = (r0, st0) →
      st.cacheLookup mid = none →
      st0.cacheLookup mid = none ∧
        ∀ a, r0 = .ok (some a) → a.metric_id ≠ mid := by
    intro mw st r0 st0 hstep hcn
    obtain ⟨h0, h0p⟩ := step_nodata hstep hcn he
    exact ⟨h0, fun a ha => h0p a ha⟩
  unfold GQMFramework.evaluate_question at h
  split at h
  case _ e st0 heq =>
    injection h with h1 h2
    subst h2
    obtain ⟨h1n, _⟩ := foldLoop_nodata (fun mr => mr.metric_id ≠ mid) hstepN
      _ _ _ _ _ heq hc
    exact ⟨h1n, fun qr hqr => by rw [← h1] at hqr; cases hqr⟩
  case _ ms st0 heq =>
    injection h with h1 h2
    subst h2
    obtain ⟨h1n, h1p⟩ := foldLoop_nodata (fun mr => mr.metric_id ≠ mid) hstepN
      _ _ _ _ _ heq hc
    refine ⟨h1n, fun qr hqr mr hmr => ?_⟩
    rw [← h1] at hqr
    injection hqr with h3
    subst h3
    rcases h1p ms rfl mr hmr with h4 | h4
    · cases h4
    · exact h4

/-- A question configured with an empty metric dict evaluates, from any
state, to the fixed result with no metrics, leaving the state untouched. -/
lemma evaluate_question_of_no_metrics {qc : QuestionConfig}
    (hqc : qc.metrics = []) (st : FrameworkState) :
    GQMFramework.evaluate_question oracle flag qc d st =
      (.ok ⟨qc.text, [], qc.weight⟩, st) := by
  unfold GQMFramework.evaluate_question
  rw [GQMFramework.evalMetricsLoop, hqc]
  simp [foldLoop]

end QuestionLevel

/-! ### Goal-level and run-level cache lemmas -/

section GoalLevel

variable {oracle : MetricOracle} {flag : Bool} {d : EvaluationData} {mid : String}

lemma evaluate_goal_cached {gc : GoalConfig} {st : FrameworkState}
    {r : Except Unit GoalResult} {st1 : FrameworkState} {c : CachedMetricResult}
    (h : GQMFramework.evaluate_goal oracle flag gc d st = (r, st1))
    (hc : st.cacheLookup mid = some c) :
    st1.cacheLookup mid = some c ∧ st1.execCount mid = st.execCount mid := by
  have hstepC : ∀ (qc : QuestionConfig) st
      (r0 : Except Unit (Option QuestionResult)) st0 c,
      ((GQMFramework.evaluate_question oracle flag qc d st).1.map some,
        (GQMFramework.evaluate_question oracle flag qc d st).2) = (r0, st0) →
      st.cacheLookup mid = some c →
      st0.cacheLookup mid = some c ∧ st0.execCount mid = st.execCount mid := by
    intro qc st r0 st0 c hstep hcs
    injection hstep with h1 h2
    subst h2
    exact evaluate_question_cached rfl hcs
  unfold GQMFramework.evaluate_goal at h
  split at h
  case _ e st0 heq =>
    injection h with h1 h2
    subst h2
    exact foldLoop_cached hstepC _ _ _ _ _ _ heq hc
  case _ qrs st0 heq =>
    injection h with h1 h2
    subst h2
    exact foldLoop_cached hstepC _ _ _ _ _ _ heq hc

lemma evaluate_goal_uncached {gc : GoalConfig} {st : FrameworkState}
    {r : Except Unit GoalResult} {st1 : FrameworkState}
    (hn : execNormalizes oracle flag mid d)
    (h : GQMFramework.evaluate_goal oracle flag gc d st = (r, st1))
    (hc : st.cacheLookup mid = none) :
    (st1.cacheLookup mid = none ∧ st1.execCount mid = st.execCount mid ∧
      (∀ gr, r = .ok gr → ¬ gc.refs mid)) ∨
    ((∃ c, st1.cacheLookup mid = some c) ∧
      st1.execCount mid = st.execCount mid + 1) := by
  have hstepC : ∀ (qc : QuestionConfig) st
      (r0 : Except Unit (Option QuestionResult)) st0 c,
      ((GQMFramework.evaluate_question oracle flag qc d st).1.map some,
        (GQMFramework.evaluate_question oracle flag qc d st).2) = (r0, st0) →
      st.cacheLookup mid = some c →
      st0.cacheLookup mid = some c ∧ st0.execCount mid = st.execCount mid := by
    intro qc st r0 st0 c hstep hcs
    injection hstep with h1 h2
    subst h2
    exact evaluate_question_cached rfl hcs
  have hstepU : ∀ (qc : QuestionConfig) st
      (r0 : Except Unit (Option QuestionResult)) st0,
      ((GQMFramework.evaluate_question oracle flag qc d st).1.map some,
        (GQMFramework.evaluate_question oracle flag qc d st).2) = (r0, st0) →
      st.cacheLookup mid = none →
      (st0.cacheLookup mid = none ∧ st0.execCount mid = st.execCount mid ∧
        (∀ a, r0 = .ok a → ¬ qc.refs mid)) ∨
      ((∃ c, st0.cacheLookup mid = some c) ∧
        st0.execCount mid = st.execCount mid + 1) := by
    intro qc st r0 st0 hstep hcs
    injection hstep with h1 h2
    subst h2
    rcases evaluate_question_uncached hn rfl hcs with ⟨h0n, h0c, h0m⟩ | hr
    · refine .inl ⟨h0n, h0c, fun a ha => ?_⟩
      cases hq : (GQMFramework.evaluate_question oracle flag qc d st).1 with
      | error e => rw [← h1, hq] at ha; cases ha
      | ok qr => exact h0m qr hq
    · exact .inr hr
  unfold GQMFramework.evaluate_goal at h
  split at h
  case _ e st0 heq =>
    injection h with h1 h2
    subst h2
    rcases foldLoop_uncached (fun qc => qc.refs mid) hstepC hstepU
        _ _ _ _ _ heq hc with ⟨h1n, h1c, _⟩ | hr
    · exact .inl ⟨h1n, h1c, fun gr hgr => by rw [← h1] at hgr; cases hgr⟩
    · exact .inr hr
  case _ qrs st0 heq =>
    injection h with h1 h2
    subst h2
    rcases foldLoop_uncached (fun qc => qc.refs mid) hstepC hstepU
        _ _ _ _ _ heq hc with ⟨h1n, h1c, h1m⟩ | hr
    · refine .inl ⟨h1n, h1c, fun gr hgr ⟨qc, hqc, hrefs⟩ => ?_⟩
      exact h1m qrs rfl qc hqc hrefs
    · exact .inr hr

lemma evaluate_goal_nodata {gc : GoalConfig} {st : FrameworkState}
    {r : Except Unit GoalResult} {st1 : FrameworkState}
    (he : MetricExecutor.execute_metric oracle mid d = none)
    (h : GQMFramework.evaluate_goal oracle flag gc d st = (r, st1))
    (hc : st.cacheLookup mid = none) :
    st1.cacheLookup mid = none ∧
      ∀ gr, r = .ok gr → ∀ qr ∈ gr.questions, ∀ mr ∈ qr.metrics,
        mr.metric_id ≠ mid := by
  have hstepN : ∀ (qc : QuestionConfig) st
      (r0 : Except Unit (Option QuestionResult)) st0,
      ((GQMFramework.evaluate_question oracle flag qc d st).1.map some,
        (GQMFramework.evaluate_question oracle flag qc d st).2) = (r0, st0) →
      st.cacheLookup mid = none →
      st0.cacheLookup mid = none ∧
        ∀ a, r0 = .ok (some a) → ∀ mr ∈ a.metrics, mr.metric_id ≠ mid := by
    intro qc st r0 st0 hstep hcs
    injection hstep with h1 h2
    subst h2
    obtain ⟨h0n, h0p⟩ := evaluate_question_nodata he rfl hcs
    refine ⟨h0n, fun a ha => ?_⟩
    cases hq : (GQMFramework.evaluate_question oracle flag qc d st).1 with
    | error e => rw [← h1, hq] at ha; cases ha
    | ok qr =>
      rw [← h1, hq] at ha
      injection ha with h3
      injection h3 with h4
      subst h4
      exact h0p qr hq
  unfold GQMFramework.evaluate_goal at h
  split at h
  case _ e st0 heq =>
    injection h with h1 h2
    subst h2
    obtain ⟨h1n, _⟩ := foldLoop_nodata
      (fun qr => ∀ mr ∈ qr.metrics, mr.metric_id ≠ mid) hstepN
      _ _ _ _ _ heq hc
    exact ⟨h1n, fun gr hgr => by rw [← h1] at hgr; cases hgr⟩
  case _ qrs st0 heq =>
    injection h with h1 h2
    subst h2
    obtain ⟨h1n, h1p⟩ := foldLoop_nodata
      (fun qr => ∀ mr ∈ qr.metrics, mr.metric_id ≠ mid) hstepN
      _ _ _ _ _ heq hc
    refine ⟨h1n, fun gr hgr qr hqr mr hmr => ?_⟩
    rw [← h1] at hgr
    injection hgr with h3
    subst h3
    rcases h1p qrs rfl qr hqr with h4 | h4
    · cases h4
    · exact h4 mr hmr

end GoalLevel

section RunLevel

variable {oracle : MetricOracle} {flag : Bool} {mid : String}

lemma evaluate_cached {cfg : EvaluationConfig} {tcs : List TestCase}
    {rag : RagSystem} {st : FrameworkState} {r : Except Unit EvaluationResult}
    {st1 : FrameworkState} {c : CachedMetricResult}
    (h : GQMFramework.evaluate oracle flag cfg tcs rag st = (r, st1))
    (hc : st.cacheLookup mid = some c) :
    st1.cacheLookup mid = some c ∧ st1.execCount mid = st.execCount mid := by
  have hstepC : ∀ (gc : GoalConfig) st
      (r0 : Except Unit (Option GoalResult)) st0 c,
      ((GQMFramework.evaluate_goal oracle flag gc
          (GQMFramework.test_rag_system rag tcs).1 st).1.map some,
        (GQMFramework.evaluate_goal oracle flag gc
          (GQMFramework.test_rag_system rag tcs).1 st).2) = (r0, st0) →
      st.cacheLookup mid = some c →
      st0.cacheLookup mid = some c ∧ st0.execCount mid = st.execCount mid := by
    intro gc st r0 st0 c hstep hcs
    injection hstep with h1 h2
    subst h2
    exact evaluate_goal_cached rfl hcs
  unfold GQMFramework.evaluate at h
  split at h
  case _ e st0 heq =>
    injection h with h1 h2
    subst h2
    exact foldLoop_cached hstepC _ _ _ _ _ _ heq hc
  case _ grs st0 heq =>
    injection h with h1 h2
    subst h2
    exact foldLoop_cached hstepC _ _ _ _ _ _ heq hc

lemma evaluate_uncached {cfg : EvaluationConfig} {tcs : List TestCase}
    {rag : RagSystem} {st : FrameworkState} {r : Except Unit EvaluationResult}
    {st1 : FrameworkState}
    (hn : execNormalizes oracle flag mid (GQMFramework.test_rag_system rag tcs).1)
    (h : GQMFramework.evaluate oracle flag cfg tcs rag st = (r, st1))
    (hc : st.cacheLookup mid = none) :
    (st1.cacheLookup mid = none ∧ st1.execCount mid = st.execCount mid ∧
      (∀ er, r = .ok er → ¬ cfg.refs mid)) ∨
    ((∃ c, st1.cacheLookup mid = some c) ∧
      st1.execCount mid = st.execCount mid + 1) := by
  have hstepC : ∀ (gc : GoalConfig) st
      (r0 : Except Unit (Option GoalResult)) st0 c,
      ((GQMFramework.evaluate_goal oracle flag gc
          (GQMFramework.test_rag_system rag tcs).1 st).1.map some,
        (GQMFramework.evaluate_goal oracle flag gc
          (GQMFramework.test_rag_system rag tcs).1 st).2) = (r0, st0) →
      st.cacheLookup mid = some c →
      st0.cacheLookup mid = some c ∧ st0.execCount mid = st.execCount mid := by
    intro gc st r0 st0 c hstep hcs
    injection hstep with h1 h2
    subst h2
    exact evaluate_goal_cached rfl hcs
  have hstepU : ∀ (gc : GoalConfig) st
      (r0 : Except Unit (Option GoalResult)) st0,
      ((GQMFramework.evaluate_goal oracle flag gc
          (GQMFramework.test_rag_system rag tcs).1 st).1.map some,
        (GQMFramework.evaluate_goal oracle flag gc
          (GQMFramework.test_rag_system rag tcs).1 st).2) = (r0, st0) →
      st.cacheLookup mid = none →
      (st0.cacheLookup mid = none ∧ st0.execCount mid = st.execCount mid ∧
        (∀ a, r0 = .ok a → ¬ gc.refs mid)) ∨
      ((∃ c, st0.cacheLookup mid = some c) ∧
        st0.execCount mid = st.execCount mid + 1) := by
    intro gc st r0 st0 hstep hcs
    injection hstep with h1 h2
    subst h2
    rcases evaluate_goal_uncached hn rfl hcs with ⟨h0n, h0c, h0m⟩ | hr
    · refine .inl ⟨h0n, h0c, fun a ha => ?_⟩
      cases hg : (GQMFramework.evaluate_goal oracle flag gc
          (GQMFramework.test_rag_system rag tcs).1 st).1 with
      | error e => rw [← h1, hg] at ha; cases ha
      | ok gr => exact h0m gr hg
    · exact .inr hr
  unfold GQMFramework.evaluate at h
  split at h
  case _ e st0 heq =>
    injection h with h1 h2
    subst h2
    rcases foldLoop_uncached (fun gc => gc.refs mid) hstepC hstepU
        _ _ _ _ _ heq hc with ⟨h1n, h1c, _⟩ | hr
    · exact .inl ⟨h1n, h1c, fun er her => by rw [← h1] at her; cases her⟩
    · exact .inr hr
  case _ grs st0 heq =>
    injection h with h1 h2
    subst h2
    rcases foldLoop_uncached (fun gc => gc.refs mid) hstepC hstepU
        _ _ _ _ _ heq hc with ⟨h1n, h1c, h1m⟩ | hr
    · refine .inl ⟨h1n, h1c, fun er her ⟨gc, hgc, hrefs⟩ => ?_⟩
      exact h1m grs rfl gc hgc hrefs
    · exact .inr hr

lemma evaluate_nodata {cfg : EvaluationConfig} {tcs : List TestCase}
    {rag : RagSystem} {st : FrameworkState} {r : Except Unit EvaluationResult}
    {st1 : FrameworkState}
    (he : MetricExecutor.execute_metric oracle mid
      (GQMFramework.test_rag_system rag tcs).1 = none)
    (h : GQMFramework.evaluate oracle flag cfg tcs rag st = (r, st1))
    (hc : st.cacheLookup mid = none) :
    st1.cacheLookup mid = none ∧
      ∀ er, r = .ok er → ∀ gr ∈ er.goals, ∀ qr ∈ gr.questions,
        ∀ mr ∈ qr.metrics, mr.metric_id ≠ mid := by
  have hstepN : ∀ (gc : GoalConfig) st
      (r0 : Except Unit (Option GoalResult)) st0,
      ((GQMFramework.evaluate_goal oracle flag gc
          (GQMFramework.test_rag_system rag tcs).1 st).1.map some,
        (GQMFramework.evaluate_goal oracle flag gc
          (GQMFramework.test_rag_system rag tcs).1 st).2) = (r0, st0) →
      st.cacheLookup mid = none →
      st0.cacheLookup mid = none ∧
        ∀ a, r0 = .ok (some a) → ∀ qr ∈ a.questions, ∀ mr ∈ qr.metrics,
          mr.metric_id ≠ mid := by
    intro gc st r0 st0 hstep hcs
    injection hstep with h1 h2
    subst h2
    obtain ⟨h0n, h0p⟩ := evaluate_goal_nodata he rfl hcs
    refine ⟨h0n, fun a ha => ?_⟩
    cases hg : (GQMFramework.evaluate_goal oracle flag gc
        (GQMFramework.test_rag_system rag tcs).1 st).1 with
    | error e => rw [← h1, hg] at ha; cases ha
    | ok gr =>
      rw [← h1, hg] at ha
      injection ha with h3
      injection h3 with h4
      subst h4
      exact h0p gr hg
  unfold GQMFramework.evaluate at h
  split at h
  case _ e st0 heq =>
    injection h with h1 h2
    subst h2
    obtain ⟨h1n, _⟩ := foldLoop_nodata
      (fun gr => ∀ qr ∈ gr.questions, ∀ mr ∈ qr.metrics, mr.metric_id ≠ mid)
      hstepN _ _ _ _ _ heq hc
    exact ⟨h1n, fun er her => by rw [← h1] at her; cases her⟩
  case _ grs st0 heq =>
    injection h with h1 h2
    subst h2
    obtain ⟨h1n, h1p⟩ := foldLoop_nodata
      (fun gr => ∀ qr ∈ gr.questions, ∀ mr ∈ qr.metrics, mr.metric_id ≠ mid)
      hstepN _ _ _ _ _ heq hc
    refine ⟨h1n, fun er her gr hgr qr hqr mr hmr => ?_⟩
    rw [← h1] at her
    injection her with h3
    subst h3
    rcases h1p grs rfl gr hgr with h4 | h4
    · cases h4
    · exact h4 qr hqr mr hmr

end RunLevel

section TestLoopLemmas

/-- The record the specification requires for one test case: the RAG answer
and retrieved documents on success, empty answer and document list on a
raised exception, always carrying the case's own fields. -/
def expectedCaseResult (rag : RagSystem) (tc : TestCase) : TestCaseResult :=
  match rag tc with
  | .ok r => ⟨tc.question, r.answer, r.retrieved_documents, tc.ground_truth,
              tc.entities, tc.question_type⟩
  | .error _ => ⟨tc.question, "", [], tc.ground_truth, tc.entities,
                 tc.question_type⟩

lemma testLoop_spec (rag : RagSystem) :
    ∀ (tcs : List TestCase) (acc : List TestCaseResult) (log : List String),
      testLoop rag tcs acc log =
        (acc ++ tcs.map (expectedCaseResult rag),
         log ++ tcs.map TestCase.question) := by
  intro tcs
  induction tcs with
  | nil => intro acc log; simp [testLoop]
  | cons tc rest ih =>
    intro acc log
    cases hr : rag tc with
    | ok r =>
      simp only [testLoop, hr, ih, List.map_cons, expectedCaseResult]
      simp
    | error e =>
      simp only [testLoop, hr, ih, List.map_cons, expectedCaseResult]
      simp

end TestLoopLemmas

section MembershipLemmas

variable {oracle : MetricOracle} {flag : Bool} {d : EvaluationData}

/-- A goal evaluation keeps every zero-metric question of its configuration
in the produced result list. -/
lemma evaluate_goal_keeps_no_metric_question {gc : GoalConfig}
    {qc : QuestionConfig} {st st1 : FrameworkState} {gr : GoalResult}
    (hqc : qc ∈ gc.questions) (hm : qc.metrics = [])
    (h : GQMFramework.evaluate_goal oracle flag gc d st = (.ok gr, st1)) :
    (⟨qc.text, [], qc.weight⟩ : QuestionResult) ∈ gr.questions := by
  have hg : ∀ st : FrameworkState,
      ((GQMFramework.evaluate_question oracle flag qc d st).1.map some,
       (GQMFramework.evaluate_question oracle flag qc d st).2) =
        (.ok (some (⟨qc.text, [], qc.weight⟩ : QuestionResult)), st) := by
    intro st
    rw [evaluate_question_of_no_metrics hm st]
    rfl
  unfold GQMFramework.evaluate_goal at h
  split at h
  case _ e st0 heq =>
    injection h with h1 h2
    cases h1
  case _ qrs st0 heq =>
    injection h with h1 h2
    injection h1 with h3
    rw [← h3]
    exact foldLoop_elem_of_const hg _ _ _ _ _ heq hqc

end MembershipLemmas

section SerializationLemmas

lemma forall₂_map_eq {α β γ : Type} {R : α → β → Prop} {l : List α}
    {l2 : List β} (f : α → γ) (g : β → γ) (hfg : ∀ a b, R a b → g b = f a)
    (hrel : List.Forall₂ R l l2) : l2.map g = l.map f := by
  induction hrel with
  | nil => rfl
  | cons hab hrest ih => simp [ih, hfg _ _ hab]

lemma forall₂_mem_right {α β : Type} {R : α → β → Prop} {l : List α}
    {l2 : List β} (hrel : List.Forall₂ R l l2) {b : β} (hb : b ∈ l2) :
    ∃ a ∈ l, R a b := by
  induction hrel with
  | nil => cases hb
  | cons hab hrest ih =>
    rcases List.mem_cons.mp hb with hb | hb
    · exact ⟨_, by simp, hb ▸ hab⟩
    · obtain ⟨a, ha, hr⟩ := ih hb
      exact ⟨a, by simp [ha], hr⟩

lemma question_toDict_elim {q : QuestionResult} {qd : QuestionDict}
    (h : q.toDict = some qd) :
    q.score = some qd.score ∧
      qd = ⟨q.question_text, qd.score, q.weight, q.metrics.map MetricResult.toDict⟩ := by
  unfold QuestionResult.toDict at h
  cases hs : q.score with
  | none => rw [hs] at h; cases h
  | some s =>
    rw [hs] at h
    simp only [Option.map_some'] at h
    injection h with h1
    rw [← h1]
    exact ⟨rfl, rfl⟩

/-- Internal consistency of a serialized question entry: its recorded score is
the weighted average of its recorded metric values (`0.0` with no metrics). -/
lemma questionDict_consistent {q : QuestionResult} {qd : QuestionDict}
    (h : q.toDict = some qd) :
    (qd.metrics = [] → qd.score = 0) ∧
    (qd.metrics ≠ [] → qd.score =
      (qd.metrics.map fun m => m.value * m.weight).sum /
        (qd.metrics.map MetricDict.weight).sum) := by
  obtain ⟨hs, hqd⟩ := question_toDict_elim h
  have hmet : qd.metrics = q.metrics.map MetricResult.toDict := by rw [hqd]
  have hvw : (qd.metrics.map fun m => m.value * m.weight).sum =
      q.weightedSum := by
    rw [hmet, List.map_map, QuestionResult.weightedSum]
    rfl
  have hw : (qd.metrics.map MetricDict.weight).sum = q.totalWeight := by
    rw [hmet, List.map_map, QuestionResult.totalWeight]
    rfl
  constructor
  · intro hempty
    have hqempty : q.metrics = [] := by
      rw [hmet] at hempty
      exact List.map_eq_nil_iff.mp hempty
    rw [question_score_of_empty hqempty] at hs
    injection hs with h2
    exact h2.symm
  · intro hne
    have hqne : q.metrics ≠ [] := by
      intro h0
      exact hne (by rw [hmet, h0]; rfl)
    have htw : q.totalWeight ≠ 0 := by
      intro h0
      rw [QuestionResult.score, if_neg hqne, if_pos h0] at hs
      cases hs
    rw [question_score_of_totalWeight_ne htw] at hs
    injection hs with h2
    rw [hvw, hw, h2]

lemma goal_toDict_elim {g : GoalResult} {gd : GoalDict}
    (h : g.toDict = some gd) :
    g.score = some gd.score ∧ gd.name = g.goal_name ∧ gd.weight = g.weight ∧
      optionMap QuestionResult.toDict g.questions = some gd.questions := by
  unfold GoalResult.toDict at h
  cases hs : g.score with
  | none => rw [hs] at h; cases h
  | some s =>
    rw [hs] at h
    cases hq : optionMap QuestionResult.toDict g.questions with
    | none => rw [hq] at h; cases h
    | some qds =>
      rw [hq] at h
      injection h with h1
      rw [← h1]
      exact ⟨rfl, rfl, rfl, rfl⟩

/-- Internal consistency of a serialized goal entry under a positive total
question weight: its recorded score is the weighted average of its recorded
question scores. -/
lemma goalDict_consistent {g : GoalResult} {gd : GoalDict}
    (h : g.toDict = some gd)
    (hw : 0 < (gd.questions.map QuestionDict.weight).sum) :
    gd.score = (gd.questions.map fun q => q.score * q.weight).sum /
      (gd.questions.map QuestionDict.weight).sum := by
  obtain ⟨hs, _, _, hq⟩ := goal_toDict_elim h
  have hrel := optionMap_forall₂ QuestionResult.toDict _ _ hq
  have hwmap : gd.questions.map QuestionDict.weight =
      g.questions.map QuestionResult.weight := by
    refine forall₂_map_eq _ _ ?_ hrel
    intro q qd hqd
    exact congrArg QuestionDict.weight (question_toDict_elim hqd).2
  have hsmap : gd.questions.map (fun q => q.score * q.weight) =
      g.questions.map (fun q => (q.score.getD 0) * q.weight) := by
    refine forall₂_map_eq _ _ ?_ hrel
    intro q qd hqd
    obtain ⟨hsq, hqd2⟩ := question_toDict_elim hqd
    have hwq : qd.weight = q.weight := by rw [hqd2]
    rw [hsq, hwq]
    rfl
  have htw : g.totalWeight = (gd.questions.map QuestionDict.weight).sum := by
    rw [hwmap]; rfl
  have hpos : 0 < g.totalWeight := htw ▸ hw
  have hsome : ∀ q ∈ g.questions, (q.score).isSome := by
    intro q hqm
    have hts := optionMap_isSome_elem QuestionResult.toDict hq q hqm
    obtain ⟨qd2, hqd2⟩ := Option.isSome_iff_exists.mp hts
    exact Option.isSome_iff_exists.mpr ⟨_, (question_toDict_elim hqd2).1⟩
  have hscore := goal_score_of_pos hpos hsome
  rw [hscore] at hs
  injection hs with h2
  rw [hsmap, hwmap, ← h2]
  rfl

lemma eval_to_dict_elim {e : EvaluationResult} {ed : EvalDict}
    (h : e.to_dict = some ed) :
    e.score = some ed.overall_score ∧
      optionMap GoalResult.toDict e.goals = some ed.goals := by
  unfold EvaluationResult.to_dict at h
  cases hs : e.score with
  | none => rw [hs] at h; cases h
  | some s =>
    rw [hs] at h
    cases hg : optionMap GoalResult.toDict e.goals with
    | none => rw [hg] at h; cases h
    | some gds =>
      rw [hg] at h
      injection h with h1
      rw [← h1]
      exact ⟨rfl, rfl⟩

/-- Internal consistency of the serialized document's top level under a
positive total goal weight: the recorded overall score is the weighted
average of the recorded goal scores. -/
lemma evalDict_consistent {e : EvaluationResult} {ed : EvalDict}
    (h : e.to_dict = some ed)
    (hw : 0 < (ed.goals.map GoalDict.weight).sum) :
    ed.overall_score = (ed.goals.map fun g => g.score * g.weight).sum /
      (ed.goals.map GoalDict.weight).sum := by
  obtain ⟨hs, hg⟩ := eval_to_dict_elim h
  have hrel := optionMap_forall₂ GoalResult.toDict _ _ hg
  have hwmap : ed.goals.map GoalDict.weight = e.goals.map GoalResult.weight := by
    refine forall₂_map_eq _ _ ?_ hrel
    intro g gd hgd
    exact (goal_toDict_elim hgd).2.2.1
  have hsmap : ed.goals.map (fun g => g.score * g.weight) =
      e.goals.map (fun g => (g.score.getD 0) * g.weight) := by
    refine forall₂_map_eq _ _ ?_ hrel
    intro g gd hgd
    obtain ⟨hsg, _, hwg, _⟩ := goal_toDict_elim hgd
    rw [hsg, hwg]
    rfl
  have htw : e.totalWeight = (ed.goals.map GoalDict.weight).sum := by
    rw [hwmap]; rfl
  have hpos : 0 < e.totalWeight := htw ▸ hw
  have hsome : ∀ g ∈ e.goals, (g.score).isSome := by
    intro g hgm
    have hts := optionMap_isSome_elem GoalResult.toDict hg g hgm
    obtain ⟨gd2, hgd2⟩ := Option.isSome_iff_exists.mp hts
    exact Option.isSome_iff_exists.mpr ⟨_, (goal_toDict_elim hgd2).1⟩
  have hscore := eval_score_of_pos hpos hsome
  rw [hscore] at hs
  injection hs with h2
  rw [hsmap, hwmap, ← h2]
  rfl

end SerializationLemmas

/-! ## Claims -/

/-- C1 counterexample input: a goal whose single question has score `1` but
carries weight `-2`, so the question weights sum to `-2 < 0`. -/
def c1NegGoal : GoalResult :=
  ⟨"G", [⟨"Q1", [⟨"m1", 1, 1, none⟩], -2⟩], 1⟩

/-- **C1, counterexample.**  The claim "for every non-empty list of child
results the parent's score equals `sum(s_i*w_i)/sum(w_i)`" fails on
`GoalResult.score` at a non-empty question list with negative total weight:
the code returns `0.0` (the `total_weight > 0` guard fails) while the claimed
weighted-average formula yields `1`. -/
theorem C1_counterexample :
    GoalResult.score c1NegGoal = some 0 ∧
    (c1NegGoal.questions.map fun q => (q.score.getD 0) * q.weight).sum /
        c1NegGoal.totalWeight = 1 ∧
    GoalResult.score c1NegGoal ≠
      some ((c1NegGoal.questions.map fun q => (q.score.getD 0) * q.weight).sum /
        c1NegGoal.totalWeight) := by
  refine ⟨?_, ?_, ?_⟩ <;>
    norm_num [c1NegGoal, GoalResult.score, GoalResult.totalWeight,
      GoalResult.weightedSum, optionMap, QuestionResult.score,
      QuestionResult.totalWeight, QuestionResult.weightedSum, List.cons_ne_nil]

/-- The C1 scenario question: metrics `m1` (value `0.8`, weight `1.0`) and
`m2` (value `0.4`, weight `0.5`). -/
def c1ScenarioQuestion : QuestionResult :=
  ⟨"Q1", [⟨"m1", 4/5, 1, none⟩, ⟨"m2", 2/5, 1/2, none⟩], 1⟩

def c1ScenarioGoal : GoalResult := ⟨"G", [c1ScenarioQuestion], 1⟩

def c1ScenarioEval : EvaluationResult := ⟨[c1ScenarioGoal]⟩

/-- **C1 (amended).**  Weighted-average aggregation at all three levels: a
`QuestionResult` with nonzero total metric weight scores
`sum(v_i*w_i)/sum(w_i)` (with zero total the unguarded division raises,
claim C3); `GoalResult`/`EvaluationResult` score the weighted average of
their children's scores whenever the child weights sum to a positive total
(with a nonpositive total the guard returns `0.0` instead, see the
counterexample); an empty child list scores `0.0`; and in the spec scenario
(one goal of weight 1, one question of weight 1, metrics `m1 ↦ 0.8` weight
`1.0` and `m2 ↦ 0.4` weight `0.5`) the question, goal, and overall scores
all equal `2/3`. -/
theorem C1_weighted_average :
    (∀ q : QuestionResult, q.totalWeight ≠ 0 →
      q.score = some (q.weightedSum / q.totalWeight)) ∧
    (∀ q : QuestionResult, q.metrics = [] → q.score = some 0) ∧
    (∀ g : GoalResult, 0 < g.totalWeight →
      (∀ q ∈ g.questions, (q.score).isSome) →
      g.score = some ((g.questions.map fun q => (q.score.getD 0) * q.weight).sum /
        g.totalWeight)) ∧
    (∀ g : GoalResult, g.questions = [] → g.score = some 0) ∧
    (∀ e : EvaluationResult, 0 < e.totalWeight →
      (∀ g2 ∈ e.goals, (g2.score).isSome) →
      e.score = some ((e.goals.map fun g2 => (g2.score.getD 0) * g2.weight).sum /
        e.totalWeight)) ∧
    (∀ e : EvaluationResult, e.goals = [] → e.score = some 0) ∧
    QuestionResult.score c1ScenarioQuestion = some (2/3) ∧
    GoalResult.score c1ScenarioGoal = some (2/3) ∧
    EvaluationResult.score c1ScenarioEval = some (2/3) := by
  refine ⟨fun q h => question_score_of_totalWeight_ne h,
    fun q h => question_score_of_empty h,
    fun g h1 h2 => goal_score_of_pos h1 h2,
    fun g h => goal_score_of_empty h,
    fun e h1 h2 => eval_score_of_pos h1 h2,
    fun e h => eval_score_of_empty h, ?_, ?_, ?_⟩ <;>
    norm_num [c1ScenarioQuestion, c1ScenarioGoal, c1ScenarioEval,
      EvaluationResult.score, EvaluationResult.totalWeight,
      EvaluationResult.weightedSum, GoalResult.score, GoalResult.totalWeight,
      GoalResult.weightedSum, optionMap, QuestionResult.score,
      QuestionResult.totalWeight, QuestionResult.weightedSum, List.cons_ne_nil]

/-- Witness for C1: the question-level formula applied at a concrete
question whose total metric weight is `2`. -/
theorem C1_weighted_average_witness :
    QuestionResult.totalWeight ⟨"Q", [⟨"m", 1, 2, none⟩], 1⟩ ≠ 0 ∧
    QuestionResult.score ⟨"Q", [⟨"m", 1, 2, none⟩], 1⟩ =
      some (QuestionResult.weightedSum ⟨"Q", [⟨"m", 1, 2, none⟩], 1⟩ /
        QuestionResult.totalWeight ⟨"Q", [⟨"m", 1, 2, none⟩], 1⟩) :=
  ⟨by norm_num [QuestionResult.totalWeight],
   C1_weighted_average.1 _ (by norm_num [QuestionResult.totalWeight])⟩

/-- **C3.**  Evaluation of the divergence between the spec's zero-division
invariant and the code: `QuestionResult.score` divides by the total metric
weight without the guard its two siblings have, so a non-empty metric list
with all-zero weights raises `ZeroDivisionError` (modelled `none`), while
`GoalResult.score` and `EvaluationResult.score` are guarded and return
`0.0` in their all-zero-weight edge cases. -/
theorem C3_zero_weight_divergence :
    QuestionResult.score ⟨"Q", [⟨"m", 1/2, 0, none⟩], 1⟩ = none ∧
    GoalResult.score ⟨"G", [⟨"Q", [], 0⟩], 1⟩ = some 0 ∧
    EvaluationResult.score ⟨[⟨"G", [], 0⟩]⟩ = some 0 := by
  refine ⟨?_, ?_, ?_⟩ <;>
    norm_num [EvaluationResult.score, EvaluationResult.totalWeight,
      EvaluationResult.weightedSum, GoalResult.score, GoalResult.totalWeight,
      GoalResult.weightedSum, optionMap, QuestionResult.score,
      QuestionResult.totalWeight, QuestionResult.weightedSum, List.cons_ne_nil]

/-- **C5.**  `_test_rag_system` queries the RAG system exactly once per test
case, in input order (the invocation log is exactly the list of questions);
the produced `EvaluationData` carries one `TestCaseResult` per input test
case, in input order, where a successful query records the answer and the
retrieved documents and a raised query records an empty answer and an empty
document list, both carrying the case's query, ground truth, entities and
question type — so one failing test case never aborts the run. -/
theorem C5_query_once_per_case (rag : RagSystem) (tcs : List TestCase) :
    (GQMFramework.test_rag_system rag tcs).2 = tcs.map TestCase.question ∧
    (GQMFramework.test_rag_system rag tcs).1.test_case_results =
      tcs.map (expectedCaseResult rag) ∧
    (∀ tc r, rag tc = .ok r → expectedCaseResult rag tc =
      ⟨tc.question, r.answer, r.retrieved_documents, tc.ground_truth,
       tc.entities, tc.question_type⟩) ∧
    (∀ tc e, rag tc = .error e → expectedCaseResult rag tc =
      ⟨tc.question, "", [], tc.ground_truth, tc.entities, tc.question_type⟩) := by
  refine ⟨?_, ?_, ?_, ?_⟩
  · simp [GQMFramework.test_rag_system, testLoop_spec rag tcs]
  · simp [GQMFramework.test_rag_system, testLoop_spec rag tcs]
  · intro tc r h
    unfold expectedCaseResult
    rw [h]
  · intro tc e h
    unfold expectedCaseResult
    rw [h]

/-- C5 witness RAG system: answers the first question, raises on others. -/
def c5rag : RagSystem := fun tc =>
  if tc.question = "Q one" then .ok ⟨"ans", ["doc"]⟩ else .error ()

def c5case1 : TestCase := ⟨"Q one", "gt1", "simple", []⟩

def c5case2 : TestCase := ⟨"Q two", "gt2", "simple", []⟩

/-- Witness for C5 at a two-case run whose second case raises. -/
theorem C5_query_once_per_case_witness :
    (GQMFramework.test_rag_system c5rag [c5case1, c5case2]).2 =
      ["Q one", "Q two"] ∧
    expectedCaseResult c5rag c5case1 =
      ⟨"Q one", "ans", ["doc"], "gt1", [], "simple"⟩ ∧
    expectedCaseResult c5rag c5case2 =
      ⟨"Q two", "", [], "gt2", [], "simple"⟩ := by
  have h := C5_query_once_per_case c5rag [c5case1, c5case2]
  refine ⟨by rw [h.1]; rfl, ?_, ?_⟩
  · exact h.2.2.1 c5case1 ⟨"ans", ["doc"]⟩ (by simp [c5rag, c5case1])
  · exact h.2.2.2 c5case2 () (by simp [c5rag, c5case2])

/-- **C6.**  A metric-evaluation failure is local: an unrecognized metric id
makes `execute_metric` return `0.0` (never raising), a raising metric
function is caught and also reported as `0.0`, and the framework then caches
the complete `0.0` entry and continues (`.ok`) — the cache never holds a
partially-computed record. -/
theorem C6_metric_failure_local (oracle : MetricOracle) (d : EvaluationData)
    (mid : String) (flag : Bool) (w : ℚ) (st : FrameworkState) :
    (mid ∉ recognizedMetricIds →
      MetricExecutor.execute_metric oracle mid d = some (.num 0)) ∧
    (∀ e, oracle mid d = .error e →
      MetricExecutor.execute_metric oracle mid d = some (.num 0)) ∧
    (st.cacheLookup mid = none →
      MetricExecutor.execute_metric oracle mid d = some (.num 0) →
      GQMFramework.get_or_execute_metric oracle flag mid w d st =
        (.ok (some ⟨mid, 0, w, none⟩),
         ⟨st.metric_cache ++ [(mid, ⟨mid, 0, none⟩)], st.execLog ++ [mid]⟩)) := by
  refine ⟨?_, ?_, ?_⟩
  · intro h
    simp [MetricExecutor.execute_metric, h]
  · intro e he
    by_cases h : mid ∈ recognizedMetricIds
    · simp [MetricExecutor.execute_metric, h, he]
    · simp [MetricExecutor.execute_metric, h]
  · intro hc he
    exact get_or_execute_exec_ok oracle flag w d hc he rfl

/-- Witness for C6: a raising metric function behind the recognized id
`faithfulness`, from the empty cache. -/
theorem C6_metric_failure_local_witness :
    MetricExecutor.execute_metric (fun _ _ => .error ()) "faithfulness" ⟨[]⟩ =
      some (.num 0) ∧
    GQMFramework.get_or_execute_metric (fun _ _ => .error ()) false
        "faithfulness" 1 ⟨[]⟩ ⟨[], []⟩ =
      (.ok (some ⟨"faithfulness", 0, 1, none⟩),
       ⟨[("faithfulness", ⟨"faithfulness", 0, none⟩)], ["faithfulness"]⟩) := by
  have h := C6_metric_failure_local (fun _ _ => .error ()) ⟨[]⟩ "faithfulness"
    false 1 ⟨[], []⟩
  have h1 := h.2.1 () rfl
  exact ⟨h1, h.2.2 rfl h1⟩

/-- C8 counterexample oracle: a metric function returning a dict-shaped
value. -/
def c8oracle : MetricOracle := fun _ _ => .ok (some (.dict (some (4/5)) none))

/-- **C8, counterexample.**  With the detailed-results flag off, a
dict-shaped metric value is not normalized: `float(value)` raises
`TypeError`, which `_get_or_execute_metric` logs and re-raises — the call
errors out instead of producing a `{value, individual_scores}` pair, and
nothing is cached. -/
theorem C8_counterexample :
    GQMFramework.get_or_execute_metric c8oracle false "faithfulness" 1 ⟨[]⟩
      ⟨[], []⟩ = (.error (), ⟨[], ["faithfulness"]⟩) :=
  get_or_execute_exec_err c8oracle false 1 ⟨[]⟩ rfl rfl rfl

/-- **C8 (amended).**  Shape normalization at the dispatcher boundary: with
the detailed-results flag on, a dict-shaped value is normalized into the
`{value, individual_scores}` pair (`score` defaulting to `0.0` when the key
is missing); a bare float is accepted under either flag setting and carries
no breakdown; but with the flag off a dict-shaped value raises `TypeError`
(`float` of a dict), which propagates to the caller. -/
theorem C8_normalization (oracle : MetricOracle) (mid : String) (w : ℚ)
    (d : EvaluationData) (st : FrameworkState) (flag : Bool) (s : Option ℚ)
    (i : Option IndScores) (x : ℚ) (hc : st.cacheLookup mid = none) :
    (MetricExecutor.execute_metric oracle mid d = some (.dict s i) →
      GQMFramework.get_or_execute_metric oracle true mid w d st =
        (.ok (some ⟨mid, s.getD 0, w, i⟩),
         ⟨st.metric_cache ++ [(mid, ⟨mid, s.getD 0, i⟩)],
          st.execLog ++ [mid]⟩)) ∧
    (MetricExecutor.execute_metric oracle mid d = some (.num x) →
      GQMFramework.get_or_execute_metric oracle flag mid w d st =
        (.ok (some ⟨mid, x, w, none⟩),
         ⟨st.metric_cache ++ [(mid, ⟨mid, x, none⟩)], st.execLog ++ [mid]⟩)) ∧
    (MetricExecutor.execute_metric oracle mid d = some (.dict s i) →
      GQMFramework.get_or_execute_metric oracle false mid w d st =
        (.error (), ⟨st.metric_cache, st.execLog ++ [mid]⟩)) :=
  ⟨fun he => get_or_execute_exec_ok oracle true w d hc he rfl,
   fun he => get_or_execute_exec_ok oracle flag w d hc he rfl,
   fun he => get_or_execute_exec_err oracle false w d hc he rfl⟩

/-- C8 witness oracle: a dict value with a score and a breakdown. -/
def c8oracleW : MetricOracle :=
  fun _ _ => .ok (some (.dict (some (7/10)) (some [[("q", 1)]])))

/-- Witness for C8: the dict shape normalized under the flag. -/
theorem C8_normalization_witness :
    GQMFramework.get_or_execute_metric c8oracleW true "bertscore" 1 ⟨[]⟩
      ⟨[], []⟩ =
      (.ok (some ⟨"bertscore", (some ((7:ℚ)/10)).getD 0, 1, some [[("q", 1)]]⟩),
       ⟨[("bertscore", ⟨"bertscore", (some ((7:ℚ)/10)).getD 0, some [[("q", 1)]]⟩)],
        ["bertscore"]⟩) :=
  (C8_normalization c8oracleW "bertscore" 1 ⟨[]⟩ ⟨[], []⟩ true (some (7/10))
    (some [[("q", 1)]]) 0 rfl).1 rfl

/-- **C9.**  A question configured with zero metrics still yields a
`QuestionResult` with score `0.0` and an empty metric list (the state is left
untouched), it serializes with score `0` and an empty `metrics` list, a
successful goal evaluation keeps it in its question list, and it participates
in its parent goal's weighted average: a goal with a zero-metric question of
weight 1 next to a question scoring `1` with weight 1 scores `1/2`, not
`1`. -/
theorem C9_zero_metric_question (oracle : MetricOracle) (flag : Bool)
    (d : EvaluationData) (qc : QuestionConfig) (gc : GoalConfig)
    (st st1 : FrameworkState) (gr : GoalResult) (hqc : qc.metrics = []) :
    GQMFramework.evaluate_question oracle flag qc d st =
      (.ok ⟨qc.text, [], qc.weight⟩, st) ∧
    QuestionResult.score ⟨qc.text, [], qc.weight⟩ = some 0 ∧
    QuestionResult.toDict ⟨qc.text, [], qc.weight⟩ =
      some ⟨qc.text, 0, qc.weight, []⟩ ∧
    (qc ∈ gc.questions →
      GQMFramework.evaluate_goal oracle flag gc d st = (.ok gr, st1) →
      (⟨qc.text, [], qc.weight⟩ : QuestionResult) ∈ gr.questions) ∧
    GoalResult.score ⟨"G", [⟨"Q0", [], 1⟩, ⟨"Q1", [⟨"m", 1, 1, none⟩], 1⟩], 1⟩ =
      some (1/2) := by
  refine ⟨evaluate_question_of_no_metrics hqc st,
    question_score_of_empty rfl, ?_,
    fun hm hg => evaluate_goal_keeps_no_metric_question hm hqc hg, ?_⟩
  · simp [QuestionResult.toDict, QuestionResult.score]
  · norm_num [GoalResult.score, GoalResult.totalWeight, GoalResult.weightedSum,
      optionMap, QuestionResult.score, QuestionResult.totalWeight,
      QuestionResult.weightedSum, List.cons_ne_nil]

def c9qc : QuestionConfig := ⟨"Q0", 1, []⟩

def c9gc : GoalConfig := ⟨"G", 1, [c9qc]⟩

/-- Witness for C9 at a one-question goal whose question has no metrics. -/
theorem C9_zero_metric_question_witness :
    GQMFramework.evaluate_question (fun _ _ => .ok none) false c9qc ⟨[]⟩
      ⟨[], []⟩ = (.ok ⟨"Q0", [], 1⟩, ⟨[], []⟩) ∧
    (⟨"Q0", [], 1⟩ : QuestionResult) ∈
      (⟨"G", [⟨"Q0", [], 1⟩], 1⟩ : GoalResult).questions := by
  have h := C9_zero_metric_question (fun _ _ => .ok none) false ⟨[]⟩ c9qc c9gc
    ⟨[], []⟩ ⟨[], []⟩ ⟨"G", [⟨"Q0", [], 1⟩], 1⟩ rfl
  exact ⟨h.1, h.2.2.2.1 (by simp [c9gc]) rfl⟩

/-- The RAG system used by the run-level concrete inputs (its behavior is
irrelevant to metric caching; every query raises). -/
def rag0 : RagSystem := fun _ => .error ()

def c2cfg : EvaluationConfig :=
  ⟨[⟨"G", 1, [⟨"Q1", 1, [("multi_hop_reasoning", 1)]⟩,
              ⟨"Q2", 1, [("multi_hop_reasoning", 1)]⟩]⟩]⟩

/-- **C2, counterexample.**  Two different questions reference
`multi_hop_reasoning`; its metric function reports the "no data" sentinel,
so nothing is cached and `MetricExecutor.execute_metric` is invoked twice in
the run — not exactly once. -/
theorem C2_counterexample :
    c2cfg.refs "multi_hop_reasoning" ∧
    (GQMFramework.evaluate (fun _ _ => .ok none) false c2cfg [] rag0
      ⟨[], []⟩).2.execCount "multi_hop_reasoning" = 2 ∧
    (2 : ℕ) ≠ 1 := by
  refine ⟨by decide, by decide, by decide⟩

/-- **C2 (amended).**  Starting from the empty cache, a metric id whose
computation produces a value that normalizes successfully is executed at most
once per run, and exactly once when the run completes and some question
references it (a "no data" metric is not cached and is re-executed per
referencing question — see the counterexample); a cache hit reuses the one
cached `{value, individual_scores}` pair, applying the calling question's own
weight to the returned `MetricResult`. -/
theorem C2_metric_computed_once :
    (∀ (oracle : MetricOracle) (flag : Bool) (cfg : EvaluationConfig)
      (tcs : List TestCase) (rag : RagSystem) (mid : String)
      (r : Except Unit EvaluationResult) (st1 : FrameworkState),
      execNormalizes oracle flag mid (GQMFramework.test_rag_system rag tcs).1 →
      GQMFramework.evaluate oracle flag cfg tcs rag ⟨[], []⟩ = (r, st1) →
      st1.execCount mid ≤ 1 ∧
      (∀ er, r = .ok er → cfg.refs mid → st1.execCount mid = 1)) ∧
    (∀ (oracle : MetricOracle) (flag : Bool) (mid : String) (w : ℚ)
      (d : EvaluationData) (st : FrameworkState) (c : CachedMetricResult),
      st.cacheLookup mid = some c →
      GQMFramework.get_or_execute_metric oracle flag mid w d st =
        (.ok (some ⟨mid, c.value, w, c.individual_scores⟩), st)) := by
  constructor
  · intro oracle flag cfg tcs rag mid r st1 hn hev
    have hc : (⟨[], []⟩ : FrameworkState).cacheLookup mid = none := rfl
    have h0 : (⟨[], []⟩ : FrameworkState).execCount mid = 0 := rfl
    rcases evaluate_uncached hn hev hc with ⟨h1n, h1c, h1m⟩ | ⟨hs, h1c⟩
    · rw [h1c, h0]
      exact ⟨Nat.zero_le 1, fun er her hrefs => absurd hrefs (h1m er her)⟩
    · rw [h1c, h0]
      exact ⟨le_refl 1, fun _ _ _ => rfl⟩
  · intro oracle flag mid w d st c hc
    exact get_or_execute_cached oracle flag w d hc

def c2cfgW : EvaluationConfig :=
  ⟨[⟨"G", 1, [⟨"Q1", 1, [("faithfulness", 1)]⟩,
              ⟨"Q2", 1, [("faithfulness", 1)]⟩]⟩]⟩

def c2oracleW : MetricOracle := fun _ _ => .ok (some (.num (4/5)))

/-- Witness for C2: `faithfulness`, referenced by two questions and scoring
`0.8`, is executed exactly once in a completing run. -/
theorem C2_metric_computed_once_witness :
    c2cfgW.refs "faithfulness" ∧
    (GQMFramework.evaluate c2oracleW false c2cfgW [] rag0 ⟨[], []⟩).2.execCount
      "faithfulness" = 1 := by
  constructor
  · decide
  · have h := C2_metric_computed_once.1 c2oracleW false c2cfgW [] rag0
      "faithfulness"
      (GQMFramework.evaluate c2oracleW false c2cfgW [] rag0 ⟨[], []⟩).1
      (GQMFramework.evaluate c2oracleW false c2cfgW [] rag0 ⟨[], []⟩).2
      ⟨.num (4/5), 4/5, none, rfl, rfl⟩ rfl
    exact h.2 ⟨[⟨"G", [⟨"Q1", [⟨"faithfulness", 4/5, 1, none⟩], 1⟩,
                       ⟨"Q2", [⟨"faithfulness", 4/5, 1, none⟩], 1⟩], 1⟩]⟩ rfl
      (by decide)

/-- **C4.**  A metric whose computation returns the `None` "no data" sentinel
is never stored in the cache, no `MetricResult` carrying it is attached to
any question of a completed run, and every question's score is the weighted
average over the metrics that remain (`0.0` when none remain, the unguarded
weighted average when their weights sum to a nonzero total). -/
theorem C4_no_data_metric_omitted (oracle : MetricOracle) (flag : Bool)
    (cfg : EvaluationConfig) (tcs : List TestCase) (rag : RagSystem)
    (mid : String) (st : FrameworkState) (r : Except Unit EvaluationResult)
    (st1 : FrameworkState)
    (he : MetricExecutor.execute_metric oracle mid
      (GQMFramework.test_rag_system rag tcs).1 = none)
    (hc : st.cacheLookup mid = none)
    (hev : GQMFramework.evaluate oracle flag cfg tcs rag st = (r, st1)) :
    st1.cacheLookup mid = none ∧
    (∀ er, r = .ok er → ∀ gr ∈ er.goals, ∀ qr ∈ gr.questions,
      (∀ mr ∈ qr.metrics, mr.metric_id ≠ mid) ∧
      (qr.metrics = [] → qr.score = some 0) ∧
      (qr.totalWeight ≠ 0 →
        qr.score = some (qr.weightedSum / qr.totalWeight))) := by
  obtain ⟨h1, h2⟩ := evaluate_nodata he hev hc
  refine ⟨h1, fun er her gr hgr qr hqr => ?_⟩
  exact ⟨h2 er her gr hgr qr hqr,
    fun hm => question_score_of_empty hm,
    fun htw => question_score_of_totalWeight_ne htw⟩

def c4oracle : MetricOracle := fun mid _ =>
  if mid = "multi_hop_reasoning" then .ok none else .ok (some (.num (4/5)))

def c4cfg : EvaluationConfig :=
  ⟨[⟨"G", 1, [⟨"Q1", 1, [("multi_hop_reasoning", 1), ("faithfulness", 1)]⟩]⟩]⟩

/-- Witness for C4: `multi_hop_reasoning` reports "no data" and stays out of
the cache after the run. -/
theorem C4_no_data_metric_omitted_witness :
    MetricExecutor.execute_metric c4oracle "multi_hop_reasoning"
      (GQMFramework.test_rag_system rag0 []).1 = none ∧
    (GQMFramework.evaluate c4oracle false c4cfg [] rag0 ⟨[], []⟩).2.cacheLookup
      "multi_hop_reasoning" = none := by
  have h := C4_no_data_metric_omitted c4oracle false c4cfg [] rag0
    "multi_hop_reasoning" ⟨[], []⟩
    (GQMFramework.evaluate c4oracle false c4cfg [] rag0 ⟨[], []⟩).1
    (GQMFramework.evaluate c4oracle false c4cfg [] rag0 ⟨[], []⟩).2
    rfl rfl rfl
  exact ⟨rfl, h.1⟩

def c7cfg : EvaluationConfig := ⟨[⟨"G", 1, [⟨"Q1", 1, [("faithfulness", 1)]⟩]⟩]⟩

def c7oracle : MetricOracle := fun _ _ => .ok (some (.num (1/2)))

/-- **C7, counterexample.**  `evaluate` never clears `self._metric_cache`: a
first run from the fresh state executes `faithfulness` once, and a second
`evaluate` call on the resulting framework state executes nothing at all (the
log still has a single entry, not two) — the second run reuses the first
run's cache instead of starting with an empty one and recomputing. -/
theorem C7_counterexample :
    (GQMFramework.evaluate c7oracle false c7cfg [] rag0 ⟨[], []⟩).2.execLog =
      ["faithfulness"] ∧
    (GQMFramework.evaluate c7oracle false c7cfg [] rag0
      (GQMFramework.evaluate c7oracle false c7cfg [] rag0
        ⟨[], []⟩).2).2.execLog = ["faithfulness"] ∧
    ¬ ((GQMFramework.evaluate c7oracle false c7cfg [] rag0
      (GQMFramework.evaluate c7oracle false c7cfg [] rag0
        ⟨[], []⟩).2).2.execCount "faithfulness" = 2) := by
  refine ⟨by decide, by decide, by decide⟩

/-- **C7 (amended).**  The metric cache belongs to the `GQMFramework`
instance, not to a run: `evaluate` threads the incoming state through
untouched, so every entry cached before a run survives it and its metric is
not re-executed during that run.  A framework starts with an empty cache
(`_metric_cache = {}` in `__init__`), so only the first run of an instance —
e.g. the single `EvaluationPipeline.evaluate` call on a freshly built
pipeline — sees a fresh cache. -/
theorem C7_cache_per_instance (oracle : MetricOracle) (flag : Bool)
    (cfg : EvaluationConfig) (tcs : List TestCase) (rag : RagSystem)
    (st : FrameworkState) (r : Except Unit EvaluationResult)
    (st1 : FrameworkState) (mid : String) (c : CachedMetricResult)
    (hev : GQMFramework.evaluate oracle flag cfg tcs rag st = (r, st1))
    (hc : st.cacheLookup mid = some c) :
    st1.cacheLookup mid = some c ∧ st1.execCount mid = st.execCount mid :=
  evaluate_cached hev hc

def c7preState : FrameworkState :=
  ⟨[("faithfulness", ⟨"faithfulness", 1/2, none⟩)], ["faithfulness"]⟩

/-- Witness for C7: a pre-populated cache entry survives a run that
references its metric, which is not re-executed. -/
theorem C7_cache_per_instance_witness :
    (GQMFramework.evaluate c7oracle false c7cfg [] rag0
      c7preState).2.cacheLookup "faithfulness" =
        some ⟨"faithfulness", 1/2, none⟩ ∧
    (GQMFramework.evaluate c7oracle false c7cfg [] rag0
      c7preState).2.execCount "faithfulness" =
        c7preState.execCount "faithfulness" :=
  C7_cache_per_instance c7oracle false c7cfg [] rag0 c7preState
    (GQMFramework.evaluate c7oracle false c7cfg [] rag0 c7preState).1
    (GQMFramework.evaluate c7oracle false c7cfg [] rag0 c7preState).2
    "faithfulness" ⟨"faithfulness", 1/2, none⟩ rfl rfl

def c10eval : EvaluationResult :=
  ⟨[⟨"G", [⟨"Q", [⟨"m", 1, 1, none⟩], 1⟩], -2⟩]⟩

def c10dict : EvalDict :=
  ⟨0, [⟨"G", 1, -2, [⟨"Q", 1, 1, [⟨"m", 1, 1, none⟩]⟩]⟩]⟩

/-- **C10, counterexample.**  The serialized document is not always
internally consistent: with one goal of weight `-2` whose recorded score is
`1`, `to_dict` records `overall_score = 0` (the `total_weight > 0` guard),
while the weighted average of the recorded goal scores is `1`. -/
theorem C10_counterexample :
    EvaluationResult.to_dict c10eval = some c10dict ∧
    (c10dict.goals.map fun g => g.score * g.weight).sum /
      (c10dict.goals.map GoalDict.weight).sum = 1 ∧
    c10dict.overall_score = 0 ∧ (0 : ℚ) ≠ 1 := by
  refine ⟨?_, ?_, ?_, ?_⟩ <;>
    norm_num [c10eval, c10dict, EvaluationResult.to_dict,
      EvaluationResult.score, EvaluationResult.totalWeight,
      EvaluationResult.weightedSum, GoalResult.toDict, GoalResult.score,
      GoalResult.totalWeight, GoalResult.weightedSum, optionMap,
      QuestionResult.toDict, QuestionResult.score, QuestionResult.totalWeight,
      QuestionResult.weightedSum, MetricResult.toDict, List.cons_ne_nil]

/-- **C10 (amended).**  Because `to_dict` recomputes every score from its
children at serialization time, a successfully serialized document is
internally consistent wherever the recorded weights admit a weighted
average: the recorded overall score is the weighted average of the recorded
goal scores whenever the goal weights sum to a positive total (the guard
records `0.0` otherwise — see the counterexample), each recorded goal score
is likewise the weighted average of its recorded question scores under a
positive question-weight total, and each recorded question score is exactly
the weighted average of its recorded metric values and weights (`0.0` with
no metrics; serialization succeeded, so a non-empty metric list has nonzero
total weight). -/
theorem C10_serialized_consistency (e : EvaluationResult) (ed : EvalDict)
    (h : e.to_dict = some ed) :
    (0 < (ed.goals.map GoalDict.weight).sum →
      ed.overall_score = (ed.goals.map fun g => g.score * g.weight).sum /
        (ed.goals.map GoalDict.weight).sum) ∧
    (∀ gd ∈ ed.goals,
      (0 < (gd.questions.map QuestionDict.weight).sum →
        gd.score = (gd.questions.map fun q => q.score * q.weight).sum /
          (gd.questions.map QuestionDict.weight).sum) ∧
      (∀ qd ∈ gd.questions,
        (qd.metrics = [] → qd.score = 0) ∧
        (qd.metrics ≠ [] → qd.score =
          (qd.metrics.map fun m => m.value * m.weight).sum /
            (qd.metrics.map MetricDict.weight).sum))) := by
  obtain ⟨hs, hg⟩ := eval_to_dict_elim h
  refine ⟨fun hw => evalDict_consistent h hw, fun gd hgd => ?_⟩
  obtain ⟨g, hgm, hgrel⟩ := forall₂_mem_right (optionMap_forall₂ _ _ _ hg) hgd
  obtain ⟨hgs, _, _, hq⟩ := goal_toDict_elim hgrel
  refine ⟨fun hw => goalDict_consistent hgrel hw, fun qd hqd => ?_⟩
  obtain ⟨q, hqm, hqrel⟩ := forall₂_mem_right (optionMap_forall₂ _ _ _ hq) hqd
  exact questionDict_consistent hqrel

def c10wEval : EvaluationResult :=
  ⟨[⟨"G", [⟨"Q", [⟨"m", 1, 1, none⟩], 1⟩], 1⟩]⟩

def c10wDict : EvalDict :=
  ⟨1, [⟨"G", 1, 1, [⟨"Q", 1, 1, [⟨"m", 1, 1, none⟩]⟩]⟩]⟩

/-- Witness for C10 at a serialized one-goal document with positive
weights. -/
theorem C10_serialized_consistency_witness :
    c10wDict.overall_score =
      (c10wDict.goals.map fun g => g.score * g.weight).sum /
        (c10wDict.goals.map GoalDict.weight).sum := by
  have h := C10_serialized_consistency c10wEval c10wDict (by
    norm_num [c10wEval, c10wDict, EvaluationResult.to_dict,
      EvaluationResult.score, EvaluationResult.totalWeight,
      EvaluationResult.weightedSum, GoalResult.toDict, GoalResult.score,
      GoalResult.totalWeight, GoalResult.weightedSum, optionMap,
      QuestionResult.toDict, QuestionResult.score, QuestionResult.totalWeight,
      QuestionResult.weightedSum, MetricResult.toDict, List.cons_ne_nil])
  exact h.1 (by norm_num [c10wDict])

end RagEval
